import Mathlib

/-!
# stamp3r: private bits of MP3 frame headers

A shallow embedding of `stamp3r.c` / `tamp3r.h`.

* Pointers into the file buffer are offsets (`Nat`) from `f->data`; a pointer
  that may be `NULL` is an `Option Nat`.
* Memory is a flat map from offsets to cells.  Offsets `0 .. length-1` hold the
  file; the cells at larger offsets stand for whatever follows the allocation,
  so every statement quantified over the memory holds whatever the code finds
  when it dereferences a pointer past the end of the file.
* `int` values are `Int`/`Nat` (no computation here leaves the 32-bit range),
  C division is `Int.tdiv`, `unsigned char` values are reduced modulo 256.
* Loops that the C code does not bound (`count_private_bits`,
  `extract_private_data`) take a fuel argument and return `none` when it runs
  out.
-/

namespace Stamp3r

/-! ## Data model (`tamp3r.h`) -/

/-- Error codes of `enum mp3_err_code`. -/
inductive mp3_err
  | MP3_SUCCESS
  | MP3_FILE_READ_ERROR
  | MP3_FILE_WRITE_ERROR
  | MP3_MEMORY_ERROR
  | MP3_NOT_AN_MP3_FILE
  | MP3_NOT_ENOUGH_ROOM
  | MP3_INVALID_DATA
  | MP3_NO_INPUT_FILE
  deriving DecidableEq, Repr

/-- Byte memory addressed by offset from `f->data`. -/
abbrev Mem := Nat → Nat

/-- Read of one `unsigned char` cell. -/
def byte (d : Mem) (i : Nat) : Nat := d i % 256

/-- Store of one cell. -/
def set_byte (d : Mem) (a v : Nat) : Mem := fun i => if i = a then v else d i

/-- Memory holding the bytes `bs` at offsets `0 ..`, and zero after them. -/
def mem_of_bytes (bs : List Nat) : Mem := fun i => bs.getD i 0

/-- The struct `mp3_file` (its unused field `index` is left out). -/
structure mp3_file where
  data : Mem
  length : Nat
  first_frame_hdr : Option Nat
  num_private_bits : Nat

/-- The struct `unpacked_frame_header`; `priv` is the C field `private`. -/
structure unpacked_frame_header where
  version : Nat
  layer : Nat
  protection : Nat
  bitratex : Nat
  sfreqx : Nat
  padding : Nat
  priv : Nat
  mode : Nat
  modext : Nat
  copyright : Nat
  original : Nat
  emphasis : Nat
  crc : Nat
  deriving DecidableEq, Repr

abbrev MP3_VERSION_1 : Nat := 3
abbrev MP3_VERSION_2 : Nat := 2
abbrev MP3_VERSION_NONE : Nat := 1
abbrev MP3_VERSION_25 : Nat := 0
abbrev MP3_LAYER_I : Nat := 3
abbrev MP3_LAYER_II : Nat := 2
abbrev MP3_LAYER_III : Nat := 1
abbrev MP3_LAYER_NONE : Nat := 0

/-- The macro `PRIV_BIT(p)`, that is `!!(p[2] & 1)`. -/
def PRIV_BIT (d : Mem) (p : Nat) : Nat := if byte d (p + 2) &&& 1 ≠ 0 then 1 else 0

/-! ## Header codec and rate tables (`stamp3r.c`) -/

/-- The function `unpack_header`: `none` is `NULL`. -/
def unpack_header (d : Mem) (src : Nat) : Option unpacked_frame_header :=
  if byte d src ≠ 0xff ∨ byte d (src + 1) < 0xe0 then none
  else
    some {
      version := (byte d (src + 1) >>> 3) &&& 0x03
      layer := (byte d (src + 1) >>> 1) &&& 0x03
      protection := byte d (src + 1) &&& 0x01
      bitratex := byte d (src + 2) >>> 4
      sfreqx := (byte d (src + 2) >>> 2) &&& 0x03
      padding := (byte d (src + 2) >>> 1) &&& 0x01
      priv := byte d (src + 2) &&& 0x01
      mode := byte d (src + 3) >>> 6
      modext := (byte d (src + 3) >>> 4) &&& 0x03
      copyright := (byte d (src + 3) >>> 3) &&& 0x01
      original := (byte d (src + 3) >>> 2) &&& 0x01
      emphasis := byte d (src + 3) &&& 0x03
      crc := if byte d (src + 1) &&& 0x01 ≠ 0
        then (byte d (src + 4) <<< 8) + byte d (src + 5) else 0 }

/-- The table `bitrates[16][2][3]` of `get_bitrate`. -/
def bitrates : List (List (List Int)) := [
  [[0, 0, 0], [0, 0, 0]],
  [[32000, 32000, 32000], [32000, 8000, 8000]],
  [[64000, 48000, 40000], [48000, 16000, 16000]],
  [[96000, 56000, 48000], [56000, 24000, 24000]],
  [[128000, 64000, 56000], [64000, 32000, 32000]],
  [[160000, 80000, 64000], [80000, 40000, 40000]],
  [[192000, 96000, 80000], [96000, 48000, 48000]],
  [[224000, 112000, 96000], [112000, 56000, 56000]],
  [[256000, 128000, 112000], [128000, 64000, 64000]],
  [[288000, 160000, 128000], [144000, 80000, 80000]],
  [[320000, 192000, 160000], [160000, 96000, 96000]],
  [[352000, 224000, 192000], [176000, 112000, 112000]],
  [[384000, 256000, 224000], [192000, 128000, 128000]],
  [[416000, 320000, 256000], [224000, 144000, 144000]],
  [[448000, 384000, 320000], [256000, 160000, 160000]],
  [[-1, -1, -1], [-1, -1, -1]]]

/-- The function `get_bitrate` (the test `rate < 0` cannot hold for a `Nat`). -/
def get_bitrate (p : unpacked_frame_header) : Int :=
  let rate := p.bitratex
  let version := if p.version = MP3_VERSION_25 then MP3_VERSION_2 else p.version
  let layer := p.layer
  if rate > 15 ∨ ¬ (version = MP3_VERSION_1 ∨ version = MP3_VERSION_2) ∨
      ¬ (layer = MP3_LAYER_I ∨ layer = MP3_LAYER_II ∨ layer = MP3_LAYER_III) then -1
  else ((bitrates.getD rate []).getD (3 - version) []).getD (3 - layer) 0

/-- The table `sample_rates[4][3]` of `get_sample_freq`. -/
def sample_rates : List (List Int) := [
  [44100, 22050, 11025],
  [48000, 24000, 12000],
  [32000, 16000, 8000],
  [-1, -1, -1]]

/-- The function `get_sample_freq` (the test `index < 0` cannot hold for a `Nat`). -/
def get_sample_freq (p : unpacked_frame_header) : Int :=
  let index := p.sfreqx
  let version := if p.version = MP3_VERSION_25 then MP3_VERSION_2 else p.version
  if index > 3 ∨ version < MP3_VERSION_2 ∨ version > MP3_VERSION_1 then -1
  else (sample_rates.getD index []).getD (3 - version) 0

/-! ## Frame walker -/

/-- The value `frame_length_bytes` that `next_frame` computes for a header. -/
def frame_length_bytes (mp3fh : unpacked_frame_header) : Int :=
  let bit_rate := get_bitrate mp3fh
  let sample_freq := get_sample_freq mp3fh
  if mp3fh.layer = MP3_LAYER_I then
    (Int.tdiv (12 * bit_rate) sample_freq + mp3fh.padding) * 4
  else if mp3fh.layer = MP3_LAYER_II ∨ mp3fh.layer = MP3_LAYER_III then
    if mp3fh.layer = MP3_LAYER_III ∧
        (mp3fh.version = MP3_VERSION_2 ∨ mp3fh.version = MP3_VERSION_25) then
      Int.tdiv (72 * bit_rate) sample_freq + mp3fh.padding
    else
      Int.tdiv (144 * bit_rate) sample_freq + mp3fh.padding
  else 0

/-- The function `next_frame`: `none` is `NULL`. -/
def next_frame (d : Mem) (p : Nat) : Option Nat :=
  match unpack_header d p with
  | none => none
  | some mp3fh =>
    if mp3fh.version = MP3_VERSION_NONE ∨ mp3fh.layer = MP3_LAYER_NONE ∨
        mp3fh.sfreqx = 3 ∨ mp3fh.emphasis = 2 then none
    else some (Int.toNat ((p : Int) + frame_length_bytes mp3fh))

/-! ## Synchronizer -/

/-- The value of `p` in `find_first_frame_header` after the ID3 tests. -/
def skip_tags (f : mp3_file) : Nat :=
  if f.length > 128 ∧ byte f.data 0 = 0x54 ∧ byte f.data 1 = 0x41 ∧ byte f.data 2 = 0x47 then
    if f.length > 128 + 227 ∧ byte f.data 3 = 0x2b ∧ byte f.data 227 = 0x54 ∧
        byte f.data 228 = 0x41 ∧ byte f.data 229 = 0x47 then 128 + 227
    else 128
  else if f.length > 13 ∧ byte f.data 0 = 0x49 ∧ byte f.data 1 = 0x44 ∧ byte f.data 2 = 0x33 ∧
      byte f.data 6 < 128 ∧ byte f.data 7 < 128 ∧ byte f.data 8 < 128 ∧ byte f.data 9 < 128 then
    (byte f.data 6 <<< 21) + (byte f.data 7 <<< 14) + (byte f.data 8 <<< 7) + byte f.data 9 + 10
  else 0

/-- The loop `while (p < endbuf)` of `find_first_frame_header`; the first
argument is the number of offsets left before `endbuf`. -/
def crawl (d : Mem) : Nat → Nat → Option Nat
  | 0, _ => none
  | n + 1, p =>
    if (unpack_header d p).isSome ∧ (next_frame d p).isSome then some p
    else crawl d n (p + 1)

/-- The function `find_first_frame_header`, with `endbuf = length - 4`. -/
def find_first_frame_header (f : mp3_file) : Option Nat :=
  crawl f.data (Int.toNat ((f.length : Int) - 4 - (skip_tags f : Int))) (skip_tags f)

/-! ## Private-bit channel -/

/-- The loop of `count_private_bits`, from pointer `p` with `numprivatebits = n`. -/
def count_loop (d : Mem) (endbuf : Int) : Nat → Option Nat → Nat → Option Nat
  | 0, _, _ => none
  | fuel + 1, p, n =>
    match p with
    | none => some n
    | some q =>
      if (q : Int) < endbuf then
        match unpack_header d q with
        | none => some n
        | some _ => count_loop d endbuf fuel (next_frame d q) (n + 1)
      else some n

/-- The function `count_private_bits`; `endbuf` is `first_frame_hdr + length - 4`. -/
def count_private_bits (fuel : Nat) (f : mp3_file) : Option Nat :=
  match f.first_frame_hdr with
  | none => some 0
  | some q => count_loop f.data ((q : Int) + (f.length : Int) - 4) fuel (some q) 0

/-- The two loops of `embed_private_data`; `src` is the index `source` has
reached in the payload. The second loop runs once `length` is zero. The
counter `nb` never goes below zero here: `embed_private_data` enters with
`8 * length <= nb`. -/
def embed_loop (source : List Nat) :
    Nat → Mem → Option Nat → Nat → Nat → Nat → Nat → Option (mp3_err × Mem)
  | 0, _, _, _, _, _, _ => none
  | fuel + 1, d, p, m, src, length, nb =>
    if length ≠ 0 then
      match p with
      | none => some (mp3_err.MP3_INVALID_DATA, d)
      | some q =>
        let d1 := set_byte d (q + 2) (byte d (q + 2) &&& 0xfe)
        let d2 := set_byte d1 (q + 2)
          (byte d1 (q + 2) ||| (if source.getD src 0 &&& m ≠ 0 then 1 else 0))
        if m >>> 1 = 0 then
          embed_loop source fuel d2 (next_frame d2 q) 0x80 (src + 1) (length - 1) (nb - 1)
        else
          embed_loop source fuel d2 (next_frame d2 q) (m >>> 1) src length (nb - 1)
    else
      match p with
      | none => some (mp3_err.MP3_SUCCESS, d)
      | some q =>
        if nb ≠ 0 then
          let d1 := set_byte d (q + 2) (byte d (q + 2) &&& 0xfe)
          embed_loop source fuel d1 (next_frame d1 q) m src length (nb - 1)
        else some (mp3_err.MP3_SUCCESS, d)

/-- The function `embed_private_data`: the error code and the file afterwards.
Each turn of either loop decrements `nb`, so `nb + 1` turns are enough. -/
def embed_private_data (f : mp3_file) (source : List Nat) (length : Nat) :
    Option (mp3_err × mp3_file) :=
  if length > f.num_private_bits >>> 3 then some (mp3_err.MP3_NOT_ENOUGH_ROOM, f)
  else
    (embed_loop source (f.num_private_bits + 1) f.data f.first_frame_hdr 0x80 0 length
      f.num_private_bits).map (fun r => (r.1, { f with data := r.2 }))

/-- The loop `while (p)` of `extract_private_data`; `out` holds the bytes
stored through `outbuf` so far. -/
def extract_loop (d : Mem) : Nat → Option Nat → Nat → Nat → List Nat → Option (List Nat)
  | 0, _, _, _, _ => none
  | fuel + 1, p, m, c, out =>
    match p with
    | none => some (out ++ [0])
    | some q =>
      let c1 := ((c <<< 1) ||| PRIV_BIT d q) % 256
      if m + 1 = 8 then extract_loop d fuel (next_frame d q) 0 0 (out ++ [c1])
      else extract_loop d fuel (next_frame d q) (m + 1) c1 out

/-- The function `extract_private_data` when `malloc` succeeds: the bytes it
stores from `*receiver` on, in order (it then returns `MP3_SUCCESS`). The
block it allocates has `(num_private_bits >> 3) + 1` bytes. -/
def extract_private_data (fuel : Nat) (f : mp3_file) : Option (List Nat) :=
  extract_loop f.data fuel f.first_frame_hdr 0 0 []

/-- Size of the block `extract_private_data` allocates for its output. -/
def extract_alloc (f : mp3_file) : Nat := (f.num_private_bits >>> 3) + 1

/-- The part of `load_mp3_file` after the file has been read into memory. -/
def load_mp3_file (fuel : Nat) (data : Mem) (length : Nat) : Option (mp3_err × mp3_file) :=
  let f0 : mp3_file :=
    { data := data, length := length, first_frame_hdr := none, num_private_bits := 0 }
  match find_first_frame_header f0 with
  | none => some (mp3_err.MP3_NOT_AN_MP3_FILE, f0)
  | some q =>
    let f1 : mp3_file := { f0 with first_frame_hdr := some q }
    (count_private_bits fuel f1).map
      (fun n => (mp3_err.MP3_SUCCESS, { f1 with num_private_bits := n }))

/-! ## Auxiliary definitions used in the statements and proofs -/

/-- Rewriting of bit 0 of the cell at `a`, as `p[2] &= 0xfe; p[2] |= bit` does. -/
def poke (d : Mem) (a bit : Nat) : Mem := set_byte d a ((byte d a &&& 0xfe) ||| bit)

/-- Header of which only the fields that the frame length depends on are filled in. -/
def core_hdr (version layer bitratex sfreqx padding : Nat) : unpacked_frame_header :=
  { version := version, layer := layer, protection := 0, bitratex := bitratex, sfreqx := sfreqx,
    padding := padding, priv := 0, mode := 0, modext := 0, copyright := 0, original := 0,
    emphasis := 0, crc := 0 }

/-- Shape of a frame length: it is never negative and never 2, and it is 1
only for layers II and III. -/
def fl_ok (v l br sf pad : Nat) : Bool :=
  decide (0 ≤ frame_length_bytes (core_hdr v l br sf pad) ∧
    (frame_length_bytes (core_hdr v l br sf pad) = 0 ∨
     (frame_length_bytes (core_hdr v l br sf pad) = 1 ∧ l ≠ 3) ∨
     3 ≤ frame_length_bytes (core_hdr v l br sf pad)))

/-- The result of `next_frame` as a function of the header bits it looks at. -/
def nf_core (b0 s1 s2 e3 p : Nat) : Option Nat :=
  if b0 ≠ 0xff ∨ s1 < 0x70 then none
  else if (s1 >>> 2) &&& 3 = MP3_VERSION_NONE ∨ s1 &&& 3 = MP3_LAYER_NONE ∨
      (s2 >>> 1) &&& 3 = 3 ∨ e3 = 2 then none
  else some (Int.toNat ((p : Int) + frame_length_bytes
    (core_hdr ((s1 >>> 2) &&& 3) (s1 &&& 3) (s2 >>> 3) ((s2 >>> 1) &&& 3) (s2 &&& 1))))

/-- The standard MPEG frame-size formula, with floor division, in the words
of the specification. -/
def standard_frame_size (h : unpacked_frame_header) : Int :=
  if h.layer = MP3_LAYER_I then
    (12 * get_bitrate h / get_sample_freq h + h.padding) * 4
  else if h.layer = MP3_LAYER_II ∨ (h.layer = MP3_LAYER_III ∧ h.version = MP3_VERSION_1) then
    144 * get_bitrate h / get_sample_freq h + h.padding
  else
    72 * get_bitrate h / get_sample_freq h + h.padding

/-- The pointer reached from `p` after `k` calls of `next_frame`. -/
def chain (d : Mem) : Option Nat → Nat → Option Nat
  | p, 0 => p
  | p, k + 1 => chain d (p.bind (next_frame d)) k

/-- Bit `t` of the payload in the order `embed_private_data` takes the bits:
the test `*source & m` with `m = 0x80 >> (t % 8)` on byte `t / 8`. -/
def payload_bit (source : List Nat) (t : Nat) : Nat :=
  if source.getD (t / 8) 0 &&& (0x80 >>> (t % 8)) ≠ 0 then 1 else 0

/-- The bits `embed_private_data` stores in the next `n` frames when it has
already stored `t` of them: payload bits first, then zeros. -/
def embed_bits (source : List Nat) (length : Nat) : Nat → Nat → List Nat
  | _, 0 => []
  | t, n + 1 =>
    (if t < 8 * length then payload_bit source t else 0) :: embed_bits source length (t + 1) n

/-- Memory after storing the bits `bs` in the private bits of the frames
walked from `p`, one per frame, stopping early if the walk ends. -/
def poke_chain (d : Mem) : Option Nat → List Nat → Mem
  | _, [] => d
  | none, _ :: _ => d
  | some q, b :: bs => poke_chain (poke d (q + 2) b) (next_frame (poke d (q + 2) b) q) bs

/-- One turn of the loop of `extract_private_data` on the state `(m, c, out)`
with the private bit `b` just read. -/
def take_bit (s : Nat × Nat × List Nat) (b : Nat) : Nat × Nat × List Nat :=
  if s.1 + 1 = 8 then (0, 0, s.2.2 ++ [((s.2.1 <<< 1) ||| b) % 256])
  else (s.1 + 1, ((s.2.1 <<< 1) ||| b) % 256, s.2.2)

/-! ## Concrete files -/

/-- Byte `j` of a frame whose header is `FF b1 b2 00` and whose other bytes are zero. -/
def frame_byte (b1 b2 j : Nat) : Nat :=
  if j = 0 then 0xff else if j = 1 then b1 else if j = 2 then b2 else 0

/-- Memory that holds zero in every cell. -/
def zero_mem : Mem := fun _ => 0

/-- Memory image of a file: the bytes `pre`, then `n` frames of `len` bytes
with header `FF b1 b2 00`, then the cells of `post`. -/
def mp3_bytes (pre : List Nat) (n len b1 b2 : Nat) (post : Mem) : Mem := fun i =>
  if i < pre.length then pre.getD i 0
  else if i < pre.length + n * len then frame_byte b1 b2 ((i - pre.length) % len)
  else post (i - pre.length - n * len)

/-- The payload "Stego". -/
def stego : List Nat := [0x53, 0x74, 0x65, 0x67, 0x6f]

/-- The first bytes of an ID3v1 tag, "TAG"; the other 125 bytes are zero. -/
def id3v1_tag : List Nat := [0x54, 0x41, 0x47]

/-- The header `FF FB 90 00` unpacked: MPEG-1, Layer III, 128 kbps, 44100 Hz,
no padding. -/
def scenario_header : unpacked_frame_header :=
  { version := 3, layer := 1, protection := 1, bitratex := 9, sfreqx := 0, padding := 0,
    priv := 0, mode := 0, modext := 0, copyright := 0, original := 0, emphasis := 0, crc := 0 }

/-- The scenario file: 50 frames of 417 bytes (MPEG-1 Layer III, 128 kbps,
44100 Hz, no padding, protection bit set), 20850 bytes, as `load_mp3_file`
leaves it; `tail` is what the memory holds after the buffer. -/
def scenario_file (tail : Mem) : mp3_file :=
  { data := mp3_bytes [] 50 417 0xfb 0x90 tail, length := 20850, first_frame_hdr := some 0,
    num_private_bits := 50 }

/-- 15 frames `FF FB 90 00` of 417 bytes followed by a 128-byte ID3v1 tag,
6383 bytes. -/
def tagged15_file : mp3_file :=
  { data := mp3_bytes [] 15 417 0xfb 0x90 (mem_of_bytes id3v1_tag), length := 6383,
    first_frame_hdr := some 0, num_private_bits := 15 }

/-- 7 frames `FF FB 90 00` of 417 bytes followed by a 128-byte ID3v1 tag,
3047 bytes. -/
def tagged7_file : mp3_file :=
  { data := mp3_bytes [] 7 417 0xfb 0x90 (mem_of_bytes id3v1_tag), length := 3047,
    first_frame_hdr := some 0, num_private_bits := 7 }

/-- The frame header `FF FB 90 00` followed by zero bytes only, 1000 bytes. -/
def lone_header_file : mp3_file :=
  { data := mp3_bytes [] 1 417 0xfb 0x90 zero_mem, length := 1000, first_frame_hdr := none,
    num_private_bits := 0 }

/-- A byte `FF`, then 8 frames of 209 bytes with header `FF E3 82 00` (MPEG-2.5
Layer III, bitrate index 8, sample-rate index 0, padding bit set), 1673 bytes;
the bytes at offsets 488..491, inside the third frame, are `FF E3 82 00` too. -/
def stray_ff_file : mp3_file :=
  { data := set_byte (set_byte (set_byte (mp3_bytes [0xff] 8 209 0xe3 0x82 zero_mem)
      488 0xff) 489 0xe3) 490 0x82,
    length := 1673, first_frame_hdr := some 1, num_private_bits := 8 }

/-- The bytes "TAG+" followed by `n` zero bytes. -/
def tag_plus_block (n : Nat) : List Nat := [0x54, 0x41, 0x47, 0x2b] ++ List.replicate n 0

/-- File that begins with "TAG+" and 221 zero bytes; from offset 225 on, 8
frames of 192 bytes (MPEG-1 Layer III, 64 kbps, 48000 Hz, private bit set), the
first with header `FF FB 55 41` and the byte `47` after it, so that offsets
227..229 hold "UAG", the others with header `FF FB 55 00`; then 4 zero bytes.
1765 bytes. -/
def tag_plus_file : mp3_file :=
  { data := set_byte (set_byte (mp3_bytes (tag_plus_block 221) 8 192 0xfb 0x55 zero_mem)
      228 0x41) 229 0x47,
    length := 1765, first_frame_hdr := some 225, num_private_bits := 8 }

/-- File that begins with "TAG+" and 222 zero bytes; from offset 226 on, 8
frames `FF FB 90 00` of 417 bytes, then 4 zero bytes. 3566 bytes. -/
def tag_plus_gap_file : mp3_file :=
  { data := mp3_bytes (tag_plus_block 222) 8 417 0xfb 0x90 zero_mem,
    length := 3566, first_frame_hdr := some 226, num_private_bits := 8 }

/-- The first four bytes of a frame header with bitrate index 0, `FF FB 00 00`. -/
def free_header_bytes : List Nat := [0xff, 0xfb, 0x00, 0x00]

/-- The sentinel values of `get_bitrate` for the fields `v`, `l`, `br`. -/
def bitrate_ok (v l br : Nat) : Bool :=
  decide ((get_bitrate (core_hdr v l br 0 0) = -1 ↔
      br = 15 ∨ v = MP3_VERSION_NONE ∨ l = MP3_LAYER_NONE) ∧
    (get_bitrate (core_hdr v l br 0 0) = 0 ↔
      br = 0 ∧ v ≠ MP3_VERSION_NONE ∧ l ≠ MP3_LAYER_NONE) ∧
    (1 ≤ br → br ≤ 14 → v ≠ MP3_VERSION_NONE → l ≠ MP3_LAYER_NONE →
      0 < get_bitrate (core_hdr v l br 0 0)))

/-- A 128-byte block that starts with "TAG", as an ID3v1 tag does. -/
def id3v1_block : List Nat := [0x54, 0x41, 0x47] ++ List.replicate 125 0

/-- File that begins with a 128-byte "TAG" block, followed by 2 frames
`FF FB 90 00` of 417 bytes, 962 bytes. -/
def tag_first_file : mp3_file :=
  { data := mp3_bytes id3v1_block 2 417 0xfb 0x90 zero_mem, length := 962,
    first_frame_hdr := some 128, num_private_bits := 2 }

/-- An ID3v2 tag of 14 bytes: "ID3", version 3.0, no flags, size 4, and 4
bytes of padding. -/
def id3v2_tag : List Nat :=
  [0x49, 0x44, 0x33, 0x03, 0x00, 0x00, 0x00, 0x00, 0x00, 0x04, 0x00, 0x00, 0x00, 0x00]

/-- File made of the 14-byte ID3v2 tag and 2 frames `FF FB 90 00` of 417
bytes that end where the file ends, 848 bytes; `tail` is what the memory
holds after the buffer. -/
def id3v2_file (tail : Mem) : mp3_file :=
  { data := mp3_bytes id3v2_tag 2 417 0xfb 0x90 tail, length := 848,
    first_frame_hdr := some 14, num_private_bits := 2 }

/-- A 10-byte buffer: "ID3", the frame header `FF FB 90 00`, three zero bytes. -/
def short_id3_file : mp3_file :=
  { data := mem_of_bytes [0x49, 0x44, 0x33, 0xff, 0xfb, 0x90, 0x00, 0x00, 0x00, 0x00],
    length := 10, first_frame_hdr := none, num_private_bits := 0 }

/-- The cells `unpack_header` reads at `src`: `src[1]` only when `src[0]` is
0xff, bytes 2 and 3 only past the sync test, bytes 4 and 5 only when the
protection field is not zero. -/
def unpack_header_reads (d : Mem) (src : Nat) : List Nat :=
  if byte d src ≠ 0xff then [src]
  else if byte d (src + 1) < 0xe0 then [src, src + 1]
  else if byte d (src + 1) &&& 0x01 ≠ 0 then
    [src, src + 1, src + 2, src + 3, src + 4, src + 5]
  else [src, src + 1, src + 2, src + 3]

/-- The offsets at which the loop of `find_first_frame_header` calls
`unpack_header` (and `next_frame`, when the sync test passes). -/
def crawl_calls (d : Mem) : Nat → Nat → List Nat
  | 0, _ => []
  | n + 1, p =>
    if (unpack_header d p).isSome ∧ (next_frame d p).isSome then [p]
    else p :: crawl_calls d n (p + 1)

/-- The offsets at which `find_first_frame_header` calls `unpack_header`. -/
def find_first_calls (f : mp3_file) : List Nat :=
  crawl_calls f.data (Int.toNat ((f.length : Int) - 4 - (skip_tags f : Int))) (skip_tags f)

/-- The offsets at which the loop of `count_private_bits` calls
`unpack_header` (and `next_frame`, when the sync test passes). -/
def count_calls (d : Mem) (endbuf : Int) : Nat → Option Nat → Option (List Nat)
  | 0, _ => none
  | fuel + 1, p =>
    match p with
    | none => some []
    | some q =>
      if (q : Int) < endbuf then
        match unpack_header d q with
        | none => some [q]
        | some _ => (count_calls d endbuf fuel (next_frame d q)).map (fun l => q :: l)
      else some []

/-- The offsets at which `count_private_bits` calls `unpack_header`. -/
def count_private_bits_calls (fuel : Nat) (f : mp3_file) : Option (List Nat) :=
  match f.first_frame_hdr with
  | none => some []
  | some q => count_calls f.data ((q : Int) + (f.length : Int) - 4) fuel (some q)

/-- The frame header `FF FB 00 00`, bitrate index 0 (free bitrate), followed
by zero bytes only, 417 bytes. -/
def free_bitrate_file : mp3_file :=
  { data := mp3_bytes [] 1 417 0xfb 0x00 zero_mem, length := 417, first_frame_hdr := some 0,
    num_private_bits := 0 }

/-- A truncated file: 2 frames `FF FB 90 00` of 417 bytes and the first 5
bytes of a third one, 839 bytes. -/
def truncated_file : mp3_file :=
  { data := mp3_bytes [] 2 417 0xfb 0x90 (mem_of_bytes [0xff, 0xfb, 0x90, 0x00, 0x00]),
    length := 839, first_frame_hdr := some 0, num_private_bits := 3 }

/-- A 9-byte buffer whose only frame header, `FF FB 90 00`, starts 5 bytes
before the end. -/
def late_header_file : mp3_file :=
  { data := mem_of_bytes [0x00, 0x00, 0x00, 0x00, 0xff, 0xfb, 0x90, 0x00, 0x00],
    length := 9, first_frame_hdr := some 4, num_private_bits := 1 }

/-! ## Bytes and the rewriting of bit 0 -/

theorem byte_lt (d : Mem) (i : Nat) : byte d i < 256 := Nat.mod_lt _ (by decide)

set_option maxRecDepth 100000 in
theorem bit0_facts : ∀ x, x < 256 → ∀ b, b < 2 →
    ((x &&& 0xfe) ||| b) < 256 ∧ ((x &&& 0xfe) ||| b) >>> 1 = x >>> 1 ∧
    (((x &&& 0xfe) ||| b) &&& 1) = b := by decide

theorem byte_poke_ne (d : Mem) (a bit i : Nat) (h : i ≠ a) :
    byte (poke d a bit) i = byte d i := by
  simp [poke, set_byte, byte, h]

theorem byte_poke_self (d : Mem) (a bit : Nat) (hb : bit < 2) :
    byte (poke d a bit) a = (byte d a &&& 0xfe) ||| bit := by
  have h := (bit0_facts (byte d a) (byte_lt d a) bit hb).1
  simp only [poke, set_byte, byte, if_true] at h ⊢
  exact Nat.mod_eq_of_lt h

theorem byte_poke_shift (d : Mem) (a bit i : Nat) (hb : bit < 2) :
    byte (poke d a bit) i >>> 1 = byte d i >>> 1 := by
  by_cases h : i = a
  · subst h
    rw [byte_poke_self d i bit hb]
    exact (bit0_facts (byte d i) (byte_lt d i) bit hb).2.1
  · rw [byte_poke_ne d a bit i h]

theorem poke_zero_eq (d : Mem) (a : Nat) :
    set_byte d a (byte d a &&& 0xfe) = poke d a 0 := by
  unfold poke
  rw [Nat.or_zero]

theorem poke_bit_eq (d : Mem) (a bit : Nat) :
    set_byte (set_byte d a (byte d a &&& 0xfe)) a
      (byte (set_byte d a (byte d a &&& 0xfe)) a ||| bit) = poke d a bit := by
  have h : byte (set_byte d a (byte d a &&& 0xfe)) a = byte d a &&& 0xfe := by
    have h1 : byte d a &&& 0xfe < 256 :=
      Nat.lt_of_le_of_lt Nat.and_le_right (by decide)
    simp only [set_byte, byte, if_true] at h1 ⊢
    exact Nat.mod_eq_of_lt h1
  rw [h]
  funext i
  unfold poke set_byte
  by_cases hi : i = a <;> simp [hi]

theorem PRIV_BIT_poke (d : Mem) (q b : Nat) (hb : b < 2) : PRIV_BIT (poke d (q + 2) b) q = b := by
  unfold PRIV_BIT
  rw [byte_poke_self d (q + 2) b hb, (bit0_facts _ (byte_lt d (q + 2)) b hb).2.2]
  have : b = 0 ∨ b = 1 := by omega
  rcases this with h | h <;> simp [h]

/-! ## Headers and frame lengths -/

theorem frame_length_core (h : unpacked_frame_header) :
    frame_length_bytes h =
      frame_length_bytes (core_hdr h.version h.layer h.bitratex h.sfreqx h.padding) := rfl

set_option maxRecDepth 100000 in
theorem fl_ok_part : ∀ n, n < 256 → ∀ k, k < 6 →
    fl_ok (n % 4) (n / 4 % 4) (n / 16) (k % 3) (k / 3) = true := by
  decide

theorem fl_ok_all (v l br sf pad : Nat) (hv : v < 4) (hl : l < 4) (hbr : br < 16) (hsf : sf < 3)
    (hpad : pad < 2) : fl_ok v l br sf pad = true := by
  have h := fl_ok_part (v + 4 * l + 16 * br) (by omega) (sf + 3 * pad) (by omega)
  have e1 : (v + 4 * l + 16 * br) % 4 = v := by omega
  have e2 : (v + 4 * l + 16 * br) / 4 % 4 = l := by omega
  have e3 : (v + 4 * l + 16 * br) / 16 = br := by omega
  have e4 : (sf + 3 * pad) % 3 = sf := by omega
  have e5 : (sf + 3 * pad) / 3 = pad := by omega
  rw [e1, e2, e3, e4, e5] at h
  exact h

theorem unpack_header_eq_none (d : Mem) (p : Nat) :
    unpack_header d p = none ↔ (byte d p ≠ 0xff ∨ byte d (p + 1) < 0xe0) := by
  unfold unpack_header
  split <;> simp_all

theorem unpack_header_isSome (d : Mem) (p : Nat) :
    (unpack_header d p).isSome = true ↔ (byte d p = 0xff ∧ 0xe0 ≤ byte d (p + 1)) := by
  unfold unpack_header
  split
  · rename_i h; simp; intro h0; rcases h with h | h
    · exact absurd h0 h
    · exact h
  · rename_i h; simp at h ⊢; exact h

theorem unpack_header_layer_le (d : Mem) (p : Nat) (h : unpacked_frame_header)
    (hu : unpack_header d p = some h) : h.layer ≤ 3 := by
  unfold unpack_header at hu
  split at hu
  · exact absurd hu (by simp)
  · simp only [Option.some.injEq] at hu
    rw [← hu]
    exact Nat.and_le_right

theorem next_frame_eq_core (d : Mem) (p : Nat) :
    next_frame d p =
      nf_core (byte d p) (byte d (p + 1) >>> 1) (byte d (p + 2) >>> 1) (byte d (p + 3) &&& 3) p := by
  have e4 : ∀ b : Nat, (b < 0xe0 ↔ b >>> 1 < 0x70) := by
    intro b; rw [Nat.shiftRight_eq_div_pow]; omega
  unfold next_frame unpack_header nf_core
  by_cases hs : byte d p ≠ 0xff ∨ byte d (p + 1) < 0xe0
  · have hs' : byte d p ≠ 0xff ∨ byte d (p + 1) >>> 1 < 0x70 := by
      rcases hs with h | h
      · exact Or.inl h
      · exact Or.inr ((e4 _).1 h)
    rw [if_pos hs, if_pos hs']
  · have hs' : ¬ (byte d p ≠ 0xff ∨ byte d (p + 1) >>> 1 < 0x70) := by
      intro h; apply hs
      rcases h with h | h
      · exact Or.inl h
      · exact Or.inr ((e4 _).2 h)
    rw [if_neg hs, if_neg hs']
    rfl

theorem next_frame_congr (d d' : Mem) (p : Nat) (h0 : byte d p = byte d' p)
    (h1 : byte d (p + 1) >>> 1 = byte d' (p + 1) >>> 1)
    (h2 : byte d (p + 2) >>> 1 = byte d' (p + 2) >>> 1)
    (h3 : byte d (p + 3) &&& 3 = byte d' (p + 3) &&& 3) : next_frame d p = next_frame d' p := by
  rw [next_frame_eq_core, next_frame_eq_core, h0, h1, h2, h3]

theorem sync_congr (d d' : Mem) (p : Nat) (h0 : byte d p = byte d' p)
    (h1 : byte d (p + 1) >>> 1 = byte d' (p + 1) >>> 1) :
    (unpack_header d p).isSome = (unpack_header d' p).isSome := by
  have e4 : ∀ b : Nat, (0xe0 ≤ b ↔ 0x70 ≤ b >>> 1) := by
    intro b; rw [Nat.shiftRight_eq_div_pow]; omega
  rw [Bool.eq_iff_iff, unpack_header_isSome, unpack_header_isSome, h0, e4, e4, h1]

/-- The sync test and `next_frame` at `q` read the four cells from `q` on. -/
theorem next_frame_local (d d' : Mem) (L q : Nat) (h : ∀ i, i < L → byte d' i = byte d i)
    (hq : q + 3 < L) :
    (unpack_header d' q).isSome = (unpack_header d q).isSome ∧
    next_frame d' q = next_frame d q := by
  have h0 := h q (by omega)
  have h1 := h (q + 1) (by omega)
  have h2 := h (q + 2) (by omega)
  have h3 := h (q + 3) (by omega)
  exact ⟨sync_congr _ _ q h0 (by rw [h1]),
    next_frame_congr _ _ q h0 (by rw [h1]) (by rw [h2]) (by rw [h3])⟩

theorem next_frame_poke (d : Mem) (a bit p : Nat) (hb : bit < 2) (h0 : a ≠ p) (h3 : a ≠ p + 3) :
    next_frame (poke d a bit) p = next_frame d p := by
  apply next_frame_congr
  · exact byte_poke_ne d a bit p (Ne.symm h0)
  · exact byte_poke_shift d a bit _ hb
  · exact byte_poke_shift d a bit _ hb
  · rw [byte_poke_ne d a bit _ (Ne.symm h3)]

theorem sync_poke (d : Mem) (a bit p : Nat) (hb : bit < 2) (h0 : a ≠ p) :
    (unpack_header (poke d a bit) p).isSome = (unpack_header d p).isSome := by
  apply sync_congr
  · exact byte_poke_ne d a bit p (Ne.symm h0)
  · exact byte_poke_shift d a bit _ hb

/-- A frame never has length 2, and never length 1 when another header follows. -/
theorem next_frame_step (d : Mem) (a b : Nat) (h : next_frame d a = some b) :
    b = a ∨ (b = a + 1 ∧ unpack_header d b = none) ∨ a + 3 ≤ b := by
  rw [next_frame_eq_core] at h
  unfold nf_core at h
  split at h
  · exact absurd h (by simp)
  · split at h
    · exact absurd h (by simp)
    · rename_i hs hr
      have hb1 : byte d (a + 1) >>> 1 < 128 := by
        have := byte_lt d (a + 1); rw [Nat.shiftRight_eq_div_pow]; omega
      have hb2 : byte d (a + 2) >>> 1 < 128 := by
        have := byte_lt d (a + 2); rw [Nat.shiftRight_eq_div_pow]; omega
      have hv : (byte d (a + 1) >>> 1 >>> 2) &&& 3 < 4 := Nat.lt_succ_of_le Nat.and_le_right
      have hl : (byte d (a + 1) >>> 1) &&& 3 < 4 := Nat.lt_succ_of_le Nat.and_le_right
      have hbr : byte d (a + 2) >>> 1 >>> 3 < 16 := by
        rw [Nat.shiftRight_eq_div_pow]; omega
      have hsf : (byte d (a + 2) >>> 1 >>> 1) &&& 3 < 3 := by
        have : (byte d (a + 2) >>> 1 >>> 1) &&& 3 ≤ 3 := Nat.and_le_right
        have h3 : ¬ ((byte d (a + 2) >>> 1 >>> 1) &&& 3 = 3) := fun e => hr (Or.inr (Or.inr (Or.inl e)))
        omega
      have hpad : (byte d (a + 2) >>> 1) &&& 1 < 2 := Nat.lt_succ_of_le Nat.and_le_right
      have hok := fl_ok_all _ _ _ _ _ hv hl hbr hsf hpad
      simp only [fl_ok, decide_eq_true_eq] at hok
      obtain ⟨hnn, hsh⟩ := hok
      simp only [Option.some.injEq] at h
      rcases hsh with h0 | ⟨h1, hl3⟩ | h3
      · left; rw [h0] at h; simpa using h.symm
      · right; left
        rw [h1] at h
        have hb : b = a + 1 := by omega
        refine ⟨hb, ?_⟩
        rw [hb, unpack_header_eq_none]
        left
        intro hff
        apply hl3
        rw [hff]
        decide
      · right; right; omega

theorem bitrate_pos_all : ∀ v, v < 2 → ∀ l, l < 3 → ∀ br, br < 14 →
    0 < get_bitrate (core_hdr (v + 2) (l + 1) (br + 1) 0 0) := by decide

theorem sample_freq_pos_all : ∀ v, v < 2 → ∀ sf, sf < 3 →
    0 < get_sample_freq (core_hdr (v + 2) 0 0 sf 0) := by decide

theorem get_bitrate_pos (h : unpacked_frame_header)
    (hv : h.version = MP3_VERSION_1 ∨ h.version = MP3_VERSION_2)
    (hl : h.layer = MP3_LAYER_I ∨ h.layer = MP3_LAYER_II ∨ h.layer = MP3_LAYER_III)
    (hbr1 : 1 ≤ h.bitratex) (hbr2 : h.bitratex ≤ 14) : 0 < get_bitrate h := by
  have key := bitrate_pos_all (h.version - 2) (by rcases hv with e | e <;> rw [e] <;> decide)
    (h.layer - 1) (by rcases hl with e | e | e <;> rw [e] <;> decide)
    (h.bitratex - 1) (by omega)
  have e1 : h.version - 2 + 2 = h.version := by rcases hv with e | e <;> rw [e] <;> rfl
  have e2 : h.layer - 1 + 1 = h.layer := by rcases hl with e | e | e <;> rw [e] <;> rfl
  have e3 : h.bitratex - 1 + 1 = h.bitratex := by omega
  rw [e1, e2, e3] at key
  exact key

theorem get_sample_freq_pos (h : unpacked_frame_header)
    (hv : h.version = MP3_VERSION_1 ∨ h.version = MP3_VERSION_2) (hsf : h.sfreqx ≤ 2) :
    0 < get_sample_freq h := by
  have key := sample_freq_pos_all (h.version - 2) (by rcases hv with e | e <;> rw [e] <;> decide)
    h.sfreqx (by omega)
  have e1 : h.version - 2 + 2 = h.version := by rcases hv with e | e <;> rw [e] <;> rfl
  rw [e1] at key
  exact key

theorem frame_length_eq_standard (h : unpacked_frame_header)
    (hv : h.version = MP3_VERSION_1 ∨ h.version = MP3_VERSION_2)
    (hl : h.layer = MP3_LAYER_I ∨ h.layer = MP3_LAYER_II ∨ h.layer = MP3_LAYER_III)
    (hbr1 : 1 ≤ h.bitratex) (hbr2 : h.bitratex ≤ 14) (hsf : h.sfreqx ≤ 2) :
    frame_length_bytes h = standard_frame_size h ∧ 0 ≤ standard_frame_size h := by
  have hb := get_bitrate_pos h hv hl hbr1 hbr2
  have hs := get_sample_freq_pos h hv hsf
  have hdiv : ∀ k : Int, 0 ≤ k → Int.tdiv (k * get_bitrate h) (get_sample_freq h) =
      k * get_bitrate h / get_sample_freq h ∧ 0 ≤ k * get_bitrate h / get_sample_freq h := by
    intro k hk
    have hnum : 0 ≤ k * get_bitrate h := Int.mul_nonneg hk (Int.le_of_lt hb)
    exact ⟨Int.tdiv_eq_ediv hnum (Int.le_of_lt hs), Int.ediv_nonneg hnum (Int.le_of_lt hs)⟩
  have hpad : (0 : Int) ≤ (h.padding : Int) := Int.ofNat_nonneg _
  unfold frame_length_bytes standard_frame_size
  rcases hl with e | e | e
  · simp only [e, if_true]
    rw [(hdiv 12 (by decide)).1]
    have := (hdiv 12 (by decide)).2
    exact ⟨rfl, by omega⟩
  · have := (hdiv 144 (by decide)).2
    simp [e, (hdiv 144 (by decide)).1]
    omega
  · rcases hv with v | v
    · have := (hdiv 144 (by decide)).2
      simp [e, v, (hdiv 144 (by decide)).1]
      omega
    · have := (hdiv 72 (by decide)).2
      simp [e, v, (hdiv 72 (by decide)).1]
      omega

/-! ## The walk along the frames -/

theorem chain_none (d : Mem) (k : Nat) : chain d none k = none := by
  induction k with
  | zero => rfl
  | succ k ih => simpa [chain] using ih

theorem chain_succ_some (d : Mem) (q k : Nat) :
    chain d (some q) (k + 1) = chain d (next_frame d q) k := rfl

theorem chain_succ_right (d : Mem) (p : Option Nat) (k : Nat) :
    chain d p (k + 1) = (chain d p k).bind (next_frame d) := by
  induction k generalizing p with
  | zero => rfl
  | succ k ih =>
    show chain d (p.bind (next_frame d)) (k + 1) = _
    rw [ih]; rfl

theorem chain_add (d : Mem) (p : Option Nat) (i j : Nat) :
    chain d p (i + j) = chain d (chain d p i) j := by
  induction i generalizing p with
  | zero => simp [chain]
  | succ i ih =>
    have : i + 1 + j = (i + j) + 1 := by omega
    rw [this]
    show chain d (p.bind (next_frame d)) (i + j) = chain d (chain d (p.bind (next_frame d)) i) j
    exact ih _

/-- Every pointer of a walk from `a` is `a`, or `a + 1` with no header there,
or at least `a + 3`. -/
theorem chain_reach (d : Mem) (a k r : Nat) (h : chain d (some a) k = some r) :
    r = a ∨ (r = a + 1 ∧ unpack_header d r = none) ∨ a + 3 ≤ r := by
  induction k generalizing r with
  | zero =>
    left
    simpa [chain] using h.symm
  | succ k ih =>
    rw [chain_succ_right] at h
    cases hc : chain d (some a) k with
    | none => rw [hc] at h; exact absurd h (by simp)
    | some c =>
      rw [hc] at h
      have hstep := next_frame_step d c r h
      have hnf : next_frame d c = some r := h
      rcases ih c hc with h1 | ⟨h2, hn⟩ | h3
      · subst h1; exact hstep
      · exfalso
        unfold next_frame at hnf
        rw [hn] at hnf
        exact absurd hnf (by simp)
      · right; right
        rcases hstep with e | ⟨e, _⟩ | e <;> omega

theorem chain_mono (d : Mem) (a k r : Nat) (h : chain d (some a) k = some r) : a ≤ r := by
  rcases chain_reach d a k r h with h1 | ⟨h2, _⟩ | h3 <;> omega

/-- Rewriting the private bit of the frame at `q` changes no later step of
the walk from `q`. -/
theorem chain_poke (d : Mem) (q bit : Nat) (hb : bit < 2) (p : Option Nat) (k0 : Nat)
    (hp : chain d (some q) k0 = p) (k : Nat) :
    chain (poke d (q + 2) bit) p k = chain d p k := by
  induction k generalizing p k0 with
  | zero => rfl
  | succ k ih =>
    cases p with
    | none => rw [chain_none, chain_none]
    | some r =>
      have hr := chain_reach d q k0 r hp
      have e : next_frame (poke d (q + 2) bit) r = next_frame d r := by
        apply next_frame_poke d _ bit r hb
        · rcases hr with h | ⟨h, _⟩ | h <;> omega
        · rcases hr with h | ⟨h, _⟩ | h <;> omega
      rw [chain_succ_some, chain_succ_some, e]
      apply ih _ (k0 + 1)
      rw [chain_succ_right, hp]; rfl

theorem chain_congr (d d' : Mem) (p : Option Nat)
    (h : ∀ k q, chain d p k = some q → next_frame d' q = next_frame d q) (k : Nat) :
    chain d' p k = chain d p k := by
  induction k with
  | zero => rfl
  | succ k ih =>
    rw [chain_succ_right, chain_succ_right, ih]
    cases hc : chain d p k with
    | none => rfl
    | some q => exact h k q hc

theorem chain_congr_upto (d d' : Mem) (p : Option Nat) (n : Nat)
    (h : ∀ k q, k < n → chain d p k = some q → next_frame d' q = next_frame d q) :
    ∀ k, k ≤ n → chain d' p k = chain d p k := by
  intro k
  induction k with
  | zero => intro _; rfl
  | succ k ih =>
    intro hk
    rw [chain_succ_right, chain_succ_right, ih (by omega)]
    cases hc : chain d p k with
    | none => rfl
    | some q => exact h k q (by omega) hc

/-- Two pointers of one walk, the later one carrying a sync pattern, never
collide in the bits `next_frame` reads and the bit a store rewrites. -/
theorem chain_apart (d : Mem) (p : Option Nat) (i k qi r : Nat)
    (hi : chain d p i = some qi) (hk : chain d p k = some r)
    (hs : (unpack_header d qi).isSome = true) :
    qi + 2 ≠ r ∧ qi + 2 ≠ r + 3 := by
  rcases Nat.le_total i k with hik | hki
  · obtain ⟨j, rfl⟩ : ∃ j, k = i + j := ⟨k - i, by omega⟩
    rw [chain_add, hi] at hk
    rcases chain_reach d qi j r hk with h | ⟨h, _⟩ | h <;> omega
  · obtain ⟨j, rfl⟩ : ∃ j, i = k + j := ⟨i - k, by omega⟩
    rw [chain_add, hk] at hi
    rcases chain_reach d r j qi hi with h | ⟨h, hn⟩ | h
    · omega
    · rw [hn] at hs; exact absurd hs (by simp)
    · omega

/-- Frames of non-zero length make the pointers of the walk strictly increase. -/
theorem chain_strict (d : Mem) (p : Option Nat) (n : Nat)
    (h : ∀ i, i < n → ∃ q, chain d p i = some q ∧ next_frame d q ≠ some q) :
    ∀ j i q r, i < j → j ≤ n → chain d p i = some q → chain d p j = some r → q < r := by
  intro j
  induction j with
  | zero => intro i q r hij; omega
  | succ j ih =>
    intro i q r hij hj hq hr
    obtain ⟨c, hc, hnz⟩ := h j (by omega)
    rw [chain_succ_right, hc] at hr
    have hstep : next_frame d c = some r := hr
    have hcr : c < r := by
      rcases next_frame_step d c r hstep with e | ⟨e, _⟩ | e
      · subst e; exact absurd hstep hnz
      · omega
      · omega
    rcases Nat.lt_or_ge i j with hlt | hge
    · have := ih i q c hlt (by omega) hq hc
      omega
    · have hij' : i = j := by omega
      subst hij'
      rw [hq] at hc
      cases hc
      exact hcr

/-! ## The scan for the first frame -/

theorem skip_tags_zero (f : mp3_file) (h : byte f.data 0 = 0xff) : skip_tags f = 0 := by
  unfold skip_tags
  rw [h]
  simp

/-- What the crawl of `find_first_frame_header` returns lies in the scanned
range and passes the acceptance test. -/
theorem crawl_spec (d : Mem) (n : Nat) :
    ∀ (p o : Nat), crawl d n p = some o →
      p ≤ o ∧ o < p + n ∧ (unpack_header d o).isSome = true ∧ (next_frame d o).isSome = true := by
  induction n with
  | zero => intro p o h; simp [crawl] at h
  | succ n ih =>
    intro p o h
    unfold crawl at h
    split at h
    · rename_i hacc
      simp only [Option.some.injEq] at h
      subst h
      exact ⟨le_refl _, by omega, hacc.1, hacc.2⟩
    · obtain ⟨h1, h2, h3⟩ := ih (p + 1) o h
      exact ⟨by omega, by omega, h3⟩

theorem crawl_accept (d : Mem) (n p : Nat)
    (h : (unpack_header d p).isSome = true ∧ (next_frame d p).isSome = true) :
    crawl d (n + 1) p = some p := by
  unfold crawl
  rw [if_pos h]

/-- The crawl returns the first accepted offset of the scanned range. -/
theorem crawl_first (d : Mem) (n : Nat) :
    ∀ (p o : Nat), p ≤ o → o < p + n →
      (∀ q, p ≤ q → q < o →
        ¬ ((unpack_header d q).isSome = true ∧ (next_frame d q).isSome = true)) →
      ((unpack_header d o).isSome = true ∧ (next_frame d o).isSome = true) →
      crawl d n p = some o := by
  induction n with
  | zero => intro p o h1 h2; omega
  | succ n ih =>
    intro p o h1 h2 hrej hacc
    unfold crawl
    by_cases hpo : p = o
    · subst hpo
      rw [if_pos hacc]
    · rw [if_neg (hrej p (le_refl _) (by omega))]
      exact ih (p + 1) o (by omega) (by omega) (fun q hq1 hq2 => hrej q (by omega) hq2) hacc

theorem crawl_rejects (d : Mem) (n : Nat) :
    ∀ (p o : Nat), crawl d n p = some o → ∀ q, p ≤ q → q < o →
      ¬ ((unpack_header d q).isSome = true ∧ (next_frame d q).isSome = true) := by
  induction n with
  | zero => intro p o h; simp [crawl] at h
  | succ n ih =>
    intro p o h q hq1 hq2
    unfold crawl at h
    split at h
    · simp only [Option.some.injEq] at h
      omega
    · rename_i hrej
      by_cases hqp : q = p
      · subst hqp; exact hrej
      · exact ih (p + 1) o h q (by omega) hq2

theorem lt_128_shift (b : Nat) : b < 128 ↔ b >>> 1 < 64 := by
  rw [Nat.shiftRight_eq_div_pow]; omega

/-- The tag tests of `find_first_frame_header` give the same result on two
memories that agree in bits 1..7 of every cell and in the cells before
`o + 2`, when the scan starts at or before `o`, an offset with frame sync, and
`o` is 226 or more in case the buffer is longer than 355 bytes and begins with
"TAG+". -/
theorem skip_tags_stable (f : mp3_file) (d' : Mem) (o : Nat)
    (hsh : ∀ i, byte d' i >>> 1 = byte f.data i >>> 1)
    (hlow : ∀ i, i < o + 2 → byte d' i = byte f.data i)
    (hs : skip_tags f ≤ o)
    (hsync : byte f.data o = 0xff)
    (hsync1 : 0xe0 ≤ byte f.data (o + 1))
    (hext : f.length > 128 + 227 ∧ byte f.data 0 = 0x54 ∧ byte f.data 1 = 0x41 ∧
      byte f.data 2 = 0x47 ∧ byte f.data 3 = 0x2b → 226 ≤ o) :
    skip_tags { f with data := d' } = skip_tags f := by
  have h0 := hlow 0 (by omega)
  have h1 := hlow 1 (by omega)
  have hs6 : byte d' 6 < 128 ↔ byte f.data 6 < 128 := by
    rw [lt_128_shift, lt_128_shift, hsh]
  have hs7 : byte d' 7 < 128 ↔ byte f.data 7 < 128 := by
    rw [lt_128_shift, lt_128_shift, hsh]
  have hs8 : byte d' 8 < 128 ↔ byte f.data 8 < 128 := by
    rw [lt_128_shift, lt_128_shift, hsh]
  have hs9 : byte d' 9 < 128 ↔ byte f.data 9 < 128 := by
    rw [lt_128_shift, lt_128_shift, hsh]
  by_cases ho : o = 0
  · subst ho
    have e : byte d' 0 = 0xff := by rw [h0, hsync]
    rw [skip_tags_zero _ e, skip_tags_zero f hsync]
  · have h2 := hlow 2 (by omega)
    by_cases hT : f.length > 128 ∧ byte f.data 0 = 0x54 ∧ byte f.data 1 = 0x41 ∧
        byte f.data 2 = 0x47
    · have hge : 128 ≤ skip_tags f := by
        unfold skip_tags
        rw [if_pos hT]
        split <;> omega
      have h3 := hlow 3 (by omega)
      have hinner : (f.length > 128 + 227 ∧ byte d' 3 = 0x2b ∧ byte d' 227 = 0x54 ∧
          byte d' 228 = 0x41 ∧ byte d' 229 = 0x47) ↔
          (f.length > 128 + 227 ∧ byte f.data 3 = 0x2b ∧ byte f.data 227 = 0x54 ∧
          byte f.data 228 = 0x41 ∧ byte f.data 229 = 0x47) := by
        rw [h3]
        by_cases hp : f.length > 128 + 227 ∧ byte f.data 3 = 0x2b
        · have ho226 := hext ⟨hp.1, hT.2.1, hT.2.2.1, hT.2.2.2, hp.2⟩
          have h227 := hlow 227 (by omega)
          by_cases ho228 : 228 ≤ o
          · rw [h227, hlow 228 (by omega), hlow 229 (by omega)]
          · have hne : byte f.data 227 ≠ 0x54 := by
              rcases (by omega : o = 226 ∨ o = 227) with e | e
              · subst e
                intro h
                rw [h] at hsync1
                omega
              · subst e
                rw [hsync]
                decide
            rw [h227]
            constructor <;> intro h <;> exact absurd h.2.2.1 hne
        · constructor <;> intro h <;> exact absurd ⟨h.1, h.2.1⟩ hp
      unfold skip_tags
      simp only
      rw [h0, h1, h2, if_pos hT, if_pos hT]
      by_cases hc : f.length > 128 + 227 ∧ byte f.data 3 = 0x2b ∧ byte f.data 227 = 0x54 ∧
          byte f.data 228 = 0x41 ∧ byte f.data 229 = 0x47
      · rw [if_pos hc, if_pos (hinner.2 hc)]
      · rw [if_neg hc, if_neg (fun c => hc (hinner.1 c))]
    · by_cases hI : f.length > 13 ∧ byte f.data 0 = 0x49 ∧ byte f.data 1 = 0x44 ∧
          byte f.data 2 = 0x33 ∧ byte f.data 6 < 128 ∧ byte f.data 7 < 128 ∧
          byte f.data 8 < 128 ∧ byte f.data 9 < 128
      · have hsv : skip_tags f = (byte f.data 6 <<< 21) + (byte f.data 7 <<< 14) +
            (byte f.data 8 <<< 7) + byte f.data 9 + 10 := by
          unfold skip_tags
          rw [if_neg hT, if_pos hI]
        have ho10 : 10 ≤ o := by omega
        have h6 := hlow 6 (by omega)
        have h7 := hlow 7 (by omega)
        have h8 := hlow 8 (by omega)
        have h9 := hlow 9 (by omega)
        rw [hsv]
        unfold skip_tags
        simp only
        rw [h0, h1, h2, if_neg hT, h6, h7, h8, h9, if_pos hI]
      · have hsv : skip_tags f = 0 := by
          unfold skip_tags
          rw [if_neg hT, if_neg hI]
        rw [hsv]
        unfold skip_tags
        simp only
        rw [h0, h1, h2, if_neg hT, if_neg]
        rw [hs6, hs7, hs8, hs9]
        exact hI

/-! ## Counting -/

theorem count_loop_some (d : Mem) (e : Int) (fuel q n : Nat) :
    count_loop d e (fuel + 1) (some q) n =
      if (q : Int) < e ∧ (unpack_header d q).isSome = true then
        count_loop d e fuel (next_frame d q) (n + 1)
      else some n := by
  simp only [count_loop]
  by_cases h : (q : Int) < e
  · cases hu : unpack_header d q <;> simp [h]
  · simp [h]

/-- On a frame of length zero inside the buffer `count_private_bits` never returns. -/
theorem count_loop_stuck (d : Mem) (e : Int) (q : Nat) (hq : (q : Int) < e)
    (hs : (unpack_header d q).isSome = true) (hz : next_frame d q = some q) :
    ∀ fuel n, count_loop d e fuel (some q) n = none := by
  intro fuel
  induction fuel with
  | zero => intro n; rfl
  | succ fuel ih =>
    intro n
    rw [count_loop_some, if_pos ⟨hq, hs⟩, hz]
    exact ih (n + 1)

/-- What a returned count says about the walk: the counted frames lie before
`endbuf`, pass the sync test and have a non-zero length, and the walk stops
right after them. -/
theorem count_loop_spec (d : Mem) (e : Int) (fuel : Nat) :
    ∀ (p : Option Nat) (n N : Nat), count_loop d e fuel p n = some N →
      n ≤ N ∧
      (∀ i, i < N - n → ∃ q, chain d p i = some q ∧ (q : Int) < e ∧
        (unpack_header d q).isSome = true ∧ next_frame d q ≠ some q) ∧
      (∀ q, chain d p (N - n) = some q →
        ¬ ((q : Int) < e ∧ (unpack_header d q).isSome = true)) := by
  induction fuel with
  | zero => intro p n N h; simp [count_loop] at h
  | succ fuel ih =>
    intro p n N h
    cases p with
    | none =>
      simp only [count_loop, Option.some.injEq] at h
      subst h
      refine ⟨le_refl _, fun i hi => by omega, ?_⟩
      intro q hq
      simp [chain] at hq
    | some q =>
      rw [count_loop_some] at h
      by_cases hc : (q : Int) < e ∧ (unpack_header d q).isSome = true
      · rw [if_pos hc] at h
        obtain ⟨h1, h2, h3⟩ := ih _ _ _ h
        refine ⟨by omega, ?_, ?_⟩
        · intro i hi
          cases i with
          | zero =>
            refine ⟨q, rfl, hc.1, hc.2, ?_⟩
            intro hz
            rw [hz, count_loop_stuck d e q hc.1 hc.2 hz] at h
            exact absurd h (by simp)
          | succ i =>
            rw [chain_succ_some]
            exact h2 i (by omega)
        · intro r hr
          have : N - n = (N - (n + 1)) + 1 := by omega
          rw [this, chain_succ_some] at hr
          exact h3 r hr
      · rw [if_neg hc] at h
        simp only [Option.some.injEq] at h
        subst h
        refine ⟨le_refl _, fun i hi => by omega, ?_⟩
        intro r hr
        simp only [Nat.sub_self, chain, Option.some.injEq] at hr
        subst hr
        exact hc

/-- The count depends on the memory only through the sync test and the
`next_frame` of the frames of the walk that lie before `endbuf`. -/
theorem count_loop_local (d d' : Mem) (e : Int) (fuel : Nat) :
    ∀ (p : Option Nat) (n : Nat),
      (∀ k q, chain d p k = some q → (q : Int) < e →
        (unpack_header d' q).isSome = (unpack_header d q).isSome ∧
        next_frame d' q = next_frame d q) →
      count_loop d' e fuel p n = count_loop d e fuel p n := by
  induction fuel with
  | zero => intro p n _; rfl
  | succ fuel ih =>
    intro p n h
    cases p with
    | none => simp [count_loop]
    | some q =>
      rw [count_loop_some, count_loop_some]
      by_cases hq : (q : Int) < e
      · obtain ⟨hs, hn⟩ := h 0 q rfl hq
        rw [hs, hn]
        split
        · apply ih
          intro k r hr
          exact h (k + 1) r (by rw [chain_succ_some]; exact hr)
        · rfl
      · rw [if_neg (fun c => hq c.1), if_neg (fun c => hq c.1)]

theorem count_private_bits_spec (fuel : Nat) (f : mp3_file) (C : Nat)
    (h : count_private_bits fuel f = some C) :
    ∀ i, i < C → ∃ q, chain f.data f.first_frame_hdr i = some q ∧
      (unpack_header f.data q).isSome = true ∧ next_frame f.data q ≠ some q := by
  unfold count_private_bits at h
  cases hf : f.first_frame_hdr with
  | none =>
    rw [hf] at h
    simp only [Option.some.injEq] at h
    intro i hi; omega
  | some q0 =>
    rw [hf] at h
    simp only at h
    obtain ⟨_, h2, _⟩ := count_loop_spec _ _ _ _ _ _ h
    intro i hi
    obtain ⟨q, hq, _, hs, hz⟩ := h2 i (by omega)
    exact ⟨q, hq, hs, hz⟩

/-! ## Embedding -/

theorem poke_chain_none (d : Mem) (bs : List Nat) : poke_chain d none bs = d := by
  cases bs <;> rfl

theorem poke_chain_nil (d : Mem) (p : Option Nat) : poke_chain d p [] = d := by
  cases p <;> rfl

theorem mask_step : ∀ r, r < 8 →
    ((0x80 >>> r) >>> 1 = 0 ↔ r = 7) ∧ (r < 7 → (0x80 >>> r) >>> 1 = 0x80 >>> (r + 1)) := by
  decide

theorem mask_pow : ∀ r, r < 8 → 0x80 >>> r = 2 ^ (7 - r) := by decide

theorem payload_bit_lt (source : List Nat) (t : Nat) : payload_bit source t < 2 := by
  unfold payload_bit; split <;> decide

/-- The bit `embed_private_data` tests with its mask is bit `7 - t % 8` of
byte `t / 8` of the payload. -/
theorem payload_bit_eq (source : List Nat) (t : Nat) :
    payload_bit source t = (source.getD (t / 8) 0 >>> (7 - t % 8)) &&& 1 := by
  unfold payload_bit
  rw [mask_pow (t % 8) (Nat.mod_lt _ (by decide)), Nat.and_two_pow, Nat.toNat_testBit,
    Nat.and_one_is_mod, Nat.shiftRight_eq_div_pow]
  have hpos : 0 < 2 ^ (7 - t % 8) := Nat.pow_pos (by decide)
  have h2 : source.getD (t / 8) 0 / 2 ^ (7 - t % 8) % 2 < 2 := Nat.mod_lt _ (by decide)
  generalize source.getD (t / 8) 0 / 2 ^ (7 - t % 8) % 2 = b at h2 ⊢
  have : b = 0 ∨ b = 1 := by omega
  rcases this with h | h
  · subst h; simp
  · subst h; simp

theorem embed_bits_zero (source : List Nat) (L : Nat) (n t : Nat) (h : 8 * L ≤ t) :
    embed_bits source L t n = List.replicate n 0 := by
  induction n generalizing t with
  | zero => rfl
  | succ n ih =>
    unfold embed_bits
    rw [if_neg (by omega), ih (t + 1) (by omega)]
    rfl

theorem embed_bits_length (source : List Nat) (L : Nat) (n t : Nat) :
    (embed_bits source L t n).length = n := by
  induction n generalizing t with
  | zero => rfl
  | succ n ih => simp [embed_bits, ih]

theorem embed_bits_lt (source : List Nat) (L : Nat) (n t : Nat) :
    ∀ b ∈ embed_bits source L t n, b < 2 := by
  induction n generalizing t with
  | zero => intro b hb; simp [embed_bits] at hb
  | succ n ih =>
    intro b hb
    simp only [embed_bits, List.mem_cons] at hb
    rcases hb with h | h
    · rw [h]; split
      · exact payload_bit_lt source t
      · decide
    · exact ih (t + 1) b h

theorem embed_bits_getD (source : List Nat) (L : Nat) (n t i : Nat) (hi : i < n) :
    (embed_bits source L t n).getD i 0 =
      if t + i < 8 * L then payload_bit source (t + i) else 0 := by
  induction n generalizing t i with
  | zero => omega
  | succ n ih =>
    cases i with
    | zero => simp [embed_bits]
    | succ i =>
      simp only [embed_bits, List.getD_cons_succ]
      rw [ih (t + 1) i (by omega)]
      have : t + 1 + i = t + (i + 1) := by omega
      rw [this]

/-- The second loop of `embed_private_data` clears the private bit of the
next `nb` frames and succeeds. -/
theorem embed_loop_zero (source : List Nat) (fuel : Nat) :
    ∀ (d : Mem) (p : Option Nat) (m src nb : Nat), nb < fuel →
      embed_loop source fuel d p m src 0 nb =
        some (mp3_err.MP3_SUCCESS, poke_chain d p (List.replicate nb 0)) := by
  induction fuel with
  | zero => intro d p m src nb h; omega
  | succ fuel ih =>
    intro d p m src nb h
    cases p with
    | none => simp [embed_loop, poke_chain_none]
    | some q =>
      cases nb with
      | zero => simp [embed_loop, poke_chain]
      | succ n =>
        simp only [embed_loop, poke_zero_eq]
        simp only [ne_eq, not_true_eq_false, if_false, Nat.add_one_ne_zero, not_false_eq_true,
          if_true, Nat.add_sub_cancel]
        rw [ih _ _ _ _ n (by omega)]
        rfl

theorem embed_loop_step (source : List Nat) (fuel : Nat) (d : Mem) (q m src length nb : Nat)
    (hl : length ≠ 0) :
    embed_loop source (fuel + 1) d (some q) m src length nb =
      if m >>> 1 = 0 then
        embed_loop source fuel (poke d (q + 2) (if source.getD src 0 &&& m ≠ 0 then 1 else 0))
          (next_frame (poke d (q + 2) (if source.getD src 0 &&& m ≠ 0 then 1 else 0)) q)
          0x80 (src + 1) (length - 1) (nb - 1)
      else
        embed_loop source fuel (poke d (q + 2) (if source.getD src 0 &&& m ≠ 0 then 1 else 0))
          (next_frame (poke d (q + 2) (if source.getD src 0 &&& m ≠ 0 then 1 else 0)) q)
          (m >>> 1) src length (nb - 1) := by
  simp only [embed_loop, ne_eq, hl, not_false_eq_true, if_true, poke_bit_eq]

/-- The loops of `embed_private_data`, entered when `t` payload bits have been
stored, store the remaining payload bits and then zeros in the next `nb`
frames of the walk; the error code is `MP3_SUCCESS` when the walk has a frame
for every payload bit. -/
theorem embed_loop_eq (source : List Nat) (L : Nat) (fuel : Nat) :
    ∀ (d : Mem) (p : Option Nat) (t nb : Nat), t ≤ 8 * L → 8 * L - t ≤ nb → nb < fuel →
      ∃ code, embed_loop source fuel d p (0x80 >>> (t % 8)) (t / 8) (L - t / 8) nb =
          some (code, poke_chain d p (embed_bits source L t nb)) ∧
        (code = mp3_err.MP3_SUCCESS ∨ code = mp3_err.MP3_INVALID_DATA) ∧
        ((∀ i, i < 8 * L - t → (chain d p i).isSome = true) → code = mp3_err.MP3_SUCCESS) := by
  induction fuel with
  | zero => intro d p t nb _ _ h; omega
  | succ fuel ih =>
    intro d p t nb ht hnb hfuel
    by_cases hlt : t < 8 * L
    · have hlen : L - t / 8 ≠ 0 := by omega
      cases p with
      | none =>
        refine ⟨mp3_err.MP3_INVALID_DATA, ?_, Or.inr rfl, ?_⟩
        · simp [embed_loop, hlen, poke_chain_none]
        · intro h
          have := h 0 (by omega)
          simp [chain] at this
      | some q =>
        obtain ⟨n, rfl⟩ : ∃ n, nb = n + 1 := ⟨nb - 1, by omega⟩
        have hbit : (if source.getD (t / 8) 0 &&& (0x80 >>> (t % 8)) ≠ 0 then 1 else 0) =
            payload_bit source t := rfl
        have hb := payload_bit_lt source t
        have hnf : next_frame (poke d (q + 2) (payload_bit source t)) q = next_frame d q :=
          next_frame_poke d _ _ q hb (by omega) (by omega)
        have hm := mask_step (t % 8) (Nat.mod_lt _ (by decide))
        have hstate : embed_loop source (fuel + 1) d (some q) (0x80 >>> (t % 8)) (t / 8)
            (L - t / 8) (n + 1) =
            embed_loop source fuel (poke d (q + 2) (payload_bit source t)) (next_frame d q)
              (0x80 >>> ((t + 1) % 8)) ((t + 1) / 8) (L - (t + 1) / 8) n := by
          rw [embed_loop_step source fuel d q _ _ _ _ hlen, hbit, hnf, Nat.add_sub_cancel]
          by_cases h7 : t % 8 = 7
          · rw [if_pos (hm.1.2 h7)]
            have e1 : (t + 1) % 8 = 0 := by omega
            have e2 : (t + 1) / 8 = t / 8 + 1 := by omega
            have e3 : L - (t / 8 + 1) = L - t / 8 - 1 := by omega
            rw [e1, e2, e3]
            rfl
          · rw [if_neg (fun h => h7 (hm.1.1 h))]
            have e1 : (t + 1) % 8 = t % 8 + 1 := by omega
            have e2 : (t + 1) / 8 = t / 8 := by omega
            rw [e1, e2, hm.2 (by omega)]
        obtain ⟨code, hrun, hcode, hsucc⟩ :=
          ih (poke d (q + 2) (payload_bit source t)) (next_frame d q) (t + 1) n
            (by omega) (by omega) (by omega)
        refine ⟨code, ?_, hcode, ?_⟩
        · rw [hstate, hrun]
          have : embed_bits source L t (n + 1) =
              payload_bit source t :: embed_bits source L (t + 1) n := by
            show (if t < 8 * L then payload_bit source t else 0) :: _ = _
            rw [if_pos hlt]
          rw [this]
          show _ = some (code, poke_chain (poke d (q + 2) (payload_bit source t))
            (next_frame (poke d (q + 2) (payload_bit source t)) q) _)
          rw [hnf]
        · intro h
          apply hsucc
          intro i hi
          rw [chain_poke d q _ hb (next_frame d q) 1 rfl i]
          have := h (i + 1) (by omega)
          rwa [chain_succ_some] at this
    · have ht8 : t = 8 * L := by omega
      have hlen : L - t / 8 = 0 := by omega
      refine ⟨mp3_err.MP3_SUCCESS, ?_, Or.inl rfl, fun _ => rfl⟩
      rw [hlen, embed_loop_zero source (fuel + 1) d p _ _ nb hfuel,
        embed_bits_zero source L nb t (by omega)]

theorem embed_loop_code (source : List Nat) (fuel : Nat) :
    ∀ (d : Mem) (p : Option Nat) (m src length nb : Nat) (r : mp3_err × Mem),
      embed_loop source fuel d p m src length nb = some r →
        r.1 = mp3_err.MP3_SUCCESS ∨ r.1 = mp3_err.MP3_INVALID_DATA := by
  induction fuel with
  | zero => intro d p m src length nb r h; simp [embed_loop] at h
  | succ fuel ih =>
    intro d p m src length nb r h
    by_cases hl : length = 0
    · subst hl
      cases p with
      | none =>
        simp only [embed_loop, ne_eq, not_true_eq_false, if_false, Option.some.injEq] at h
        left; rw [← h]
      | some q =>
        by_cases hnb : nb = 0
        · simp only [embed_loop, ne_eq, not_true_eq_false, if_false, hnb, Option.some.injEq] at h
          left; rw [← h]
        · simp only [embed_loop, ne_eq, not_true_eq_false, if_false, hnb, not_false_eq_true,
            if_true] at h
          exact ih _ _ _ _ _ _ r h
    · cases p with
      | none =>
        simp only [embed_loop, ne_eq, hl, not_false_eq_true, if_true, Option.some.injEq] at h
        right; rw [← h]
      | some q =>
        rw [embed_loop_step source fuel d q m src length nb hl] at h
        split at h <;> exact ih _ _ _ _ _ _ r h

/-- Past its capacity test `embed_private_data` always returns: the file
afterwards is the original with the payload bits, then zeros, stored in the
private bits of the first `num_private_bits` frames of the walk. -/
theorem embed_private_data_eq (f : mp3_file) (source : List Nat) (length : Nat)
    (h : ¬ length > f.num_private_bits >>> 3) :
    ∃ code, embed_private_data f source length =
        some (code, { f with data := (poke_chain f.data f.first_frame_hdr
          (embed_bits source length 0 f.num_private_bits)) }) ∧
      (code = mp3_err.MP3_SUCCESS ∨ code = mp3_err.MP3_INVALID_DATA) ∧
      ((∀ i, i < 8 * length → (chain f.data f.first_frame_hdr i).isSome = true) →
        code = mp3_err.MP3_SUCCESS) := by
  have h8 : 8 * length ≤ f.num_private_bits := by
    rw [Nat.shiftRight_eq_div_pow] at h
    have : (2 : Nat) ^ 3 = 8 := by decide
    rw [this] at h
    omega
  obtain ⟨code, hrun, hcode, hsucc⟩ :=
    embed_loop_eq source length (f.num_private_bits + 1) f.data f.first_frame_hdr 0
      f.num_private_bits (by omega) (by omega) (by omega)
  refine ⟨code, ?_, hcode, ?_⟩
  · unfold embed_private_data
    rw [if_neg h]
    have e : embed_loop source (f.num_private_bits + 1) f.data f.first_frame_hdr 0x80 0 length
        f.num_private_bits = some (code, poke_chain f.data f.first_frame_hdr
          (embed_bits source length 0 f.num_private_bits)) := hrun
    rw [e]
    rfl
  · intro hi
    exact hsucc (fun i h => hi i (by omega))

/-- Whatever `embed_private_data` returns, the file afterwards is the original
with bits stored in the private bits of at most `num_private_bits` frames of
the walk from the first frame header. -/
theorem embed_private_data_shape (f : mp3_file) (source : List Nat) (n : Nat) :
    ∃ code bs, embed_private_data f source n =
        some (code, { f with data := (poke_chain f.data f.first_frame_hdr bs) }) ∧
      bs.length ≤ f.num_private_bits ∧ ∀ b ∈ bs, b < 2 := by
  by_cases hc : n > f.num_private_bits >>> 3
  · refine ⟨mp3_err.MP3_NOT_ENOUGH_ROOM, [], ?_, Nat.zero_le _, fun b hb => by simp at hb⟩
    unfold embed_private_data
    rw [if_pos hc, poke_chain_nil]
  · obtain ⟨code, hrun, _, _⟩ := embed_private_data_eq f source n hc
    exact ⟨code, _, hrun, by rw [embed_bits_length], embed_bits_lt source n _ 0⟩

/-- Storing bits along a walk changes only bit 0 of byte 2 of frames of that walk. -/
theorem poke_chain_frame (bs : List Nat) :
    ∀ (d : Mem) (p : Option Nat), (∀ b ∈ bs, b < 2) → ∀ a,
      byte (poke_chain d p bs) a >>> 1 = byte d a >>> 1 ∧
      (poke_chain d p bs a ≠ d a →
        ∃ k q, k < bs.length ∧ chain d p k = some q ∧ a = q + 2) := by
  induction bs with
  | nil => intro d p _ a; rw [poke_chain_nil]; exact ⟨rfl, fun h => absurd rfl h⟩
  | cons b bs ih =>
    intro d p hbs a
    cases p with
    | none => exact ⟨rfl, fun h => absurd rfl h⟩
    | some q =>
      have hb : b < 2 := hbs b (List.mem_cons_self _ _)
      have hnf : next_frame (poke d (q + 2) b) q = next_frame d q :=
        next_frame_poke d _ _ q hb (by omega) (by omega)
      have hpc : poke_chain d (some q) (b :: bs) =
          poke_chain (poke d (q + 2) b) (next_frame d q) bs := by
        show poke_chain (poke d (q + 2) b) (next_frame (poke d (q + 2) b) q) bs = _
        rw [hnf]
      obtain ⟨ih1, ih2⟩ := ih (poke d (q + 2) b) (next_frame d q)
        (fun x hx => hbs x (List.mem_cons_of_mem _ hx)) a
      rw [hpc]
      refine ⟨by rw [ih1, byte_poke_shift d _ b a hb], ?_⟩
      intro hne
      by_cases h2 : poke_chain (poke d (q + 2) b) (next_frame d q) bs a = poke d (q + 2) b a
      · refine ⟨0, q, by simp, rfl, ?_⟩
        by_contra hq
        apply hne
        rw [h2]
        simp [poke, set_byte, hq]
      · obtain ⟨k, r, hk, hc, ha⟩ := ih2 h2
        refine ⟨k + 1, r, by simp; omega, ?_, ha⟩
        rw [chain_succ_some, ← chain_poke d q b hb (next_frame d q) 1 rfl k]
        exact hc

/-- Storing bits in frames that carry a sync pattern changes neither the sync
test nor `next_frame` at any pointer of the walk. -/
theorem poke_chain_agree (bs : List Nat) (d : Mem) (p : Option Nat) (hbs : ∀ b ∈ bs, b < 2)
    (hcnt : ∀ i, i < bs.length → ∃ q, chain d p i = some q ∧ (unpack_header d q).isSome = true)
    (k r : Nat) (hr : chain d p k = some r) :
    (unpack_header (poke_chain d p bs) r).isSome = (unpack_header d r).isSome ∧
    next_frame (poke_chain d p bs) r = next_frame d r := by
  have hfr := poke_chain_frame bs d p hbs
  have hsame : ∀ a, a = r ∨ a = r + 3 → byte (poke_chain d p bs) a = byte d a := by
    intro a ha
    by_cases hne : poke_chain d p bs a = d a
    · unfold byte; rw [hne]
    · exfalso
      obtain ⟨i, q, hi, hq, haq⟩ := (hfr a).2 hne
      obtain ⟨q', hq', hs⟩ := hcnt i hi
      rw [hq] at hq'
      cases hq'
      have := chain_apart d p i k q r hq hr hs
      omega
  constructor
  · exact sync_congr _ _ r (hsame r (Or.inl rfl)) (hfr (r + 1)).1
  · exact next_frame_congr _ _ r (hsame r (Or.inl rfl)) (hfr (r + 1)).1 (hfr (r + 2)).1
      (by rw [hsame (r + 3) (Or.inr rfl)])

/-- After storing bits along a walk whose pointers are pairwise distinct, the
private bit of the `i`-th frame is the `i`-th bit. -/
theorem poke_chain_priv (bs : List Nat) :
    ∀ (d : Mem) (p : Option Nat), (∀ b ∈ bs, b < 2) →
      (∀ i j q r, i < j → j < bs.length → chain d p i = some q → chain d p j = some r → q ≠ r) →
      ∀ i q, i < bs.length → chain d p i = some q →
        PRIV_BIT (poke_chain d p bs) q = bs.getD i 0 := by
  induction bs with
  | nil => intro d p _ _ i q hi; simp at hi
  | cons b bs ih =>
    intro d p hbs hstrict i q hi hq
    cases p with
    | none => rw [chain_none] at hq; exact absurd hq (by simp)
    | some q0 =>
      have hb : b < 2 := hbs b (List.mem_cons_self _ _)
      have hbs' : ∀ x ∈ bs, x < 2 := fun x hx => hbs x (List.mem_cons_of_mem _ hx)
      have hnf : next_frame (poke d (q0 + 2) b) q0 = next_frame d q0 :=
        next_frame_poke d _ _ q0 hb (by omega) (by omega)
      have hpc : poke_chain d (some q0) (b :: bs) =
          poke_chain (poke d (q0 + 2) b) (next_frame d q0) bs := by
        show poke_chain (poke d (q0 + 2) b) (next_frame (poke d (q0 + 2) b) q0) bs = _
        rw [hnf]
      have hch : ∀ k, chain (poke d (q0 + 2) b) (next_frame d q0) k =
          chain d (some q0) (k + 1) := by
        intro k
        rw [chain_succ_some]
        exact chain_poke d q0 b hb (next_frame d q0) 1 rfl k
      rw [hpc]
      cases i with
      | zero =>
        simp only [chain, Option.some.injEq] at hq
        subst hq
        have hkeep : poke_chain (poke d (q0 + 2) b) (next_frame d q0) bs (q0 + 2) =
            poke d (q0 + 2) b (q0 + 2) := by
          by_contra hne
          obtain ⟨k, r, hk, hc, ha⟩ :=
            (poke_chain_frame bs (poke d (q0 + 2) b) (next_frame d q0) hbs' (q0 + 2)).2 hne
          rw [hch] at hc
          have hr : r = q0 := by omega
          subst hr
          exact hstrict 0 (k + 1) r r (by omega) (by simp; omega) rfl hc rfl
        have : PRIV_BIT (poke_chain (poke d (q0 + 2) b) (next_frame d q0) bs) q0 =
            PRIV_BIT (poke d (q0 + 2) b) q0 := by
          unfold PRIV_BIT byte
          rw [hkeep]
        rw [this, PRIV_BIT_poke d q0 b hb]
        rfl
      | succ i =>
        rw [List.getD_cons_succ]
        apply ih (poke d (q0 + 2) b) (next_frame d q0) hbs'
        · intro i' j' q' r' hij hj hq' hr'
          rw [hch] at hq' hr'
          exact hstrict (i' + 1) (j' + 1) q' r' (by omega) (by simp; omega) hq' hr'
        · simp at hi; omega
        · rw [hch]; exact hq

/-- Embedding into a file whose `num_private_bits` is the count from its
first frame header succeeds when the payload fits; it changes neither the
walk nor the sync test and `next_frame` along it, and the private bit of the
`i`-th counted frame becomes the `i`-th stored bit. -/
theorem embed_counted (f : mp3_file) (source : List Nat) (L fuel C : Nat)
    (hcount : count_private_bits fuel f = some C) (hnb : f.num_private_bits = C)
    (hlen : 8 * L ≤ C) :
    ∃ f', embed_private_data f source L = some (mp3_err.MP3_SUCCESS, f') ∧
      f'.first_frame_hdr = f.first_frame_hdr ∧
      (∀ k, chain f'.data f.first_frame_hdr k = chain f.data f.first_frame_hdr k) ∧
      (∀ k r, chain f.data f.first_frame_hdr k = some r →
        (unpack_header f'.data r).isSome = (unpack_header f.data r).isSome ∧
        next_frame f'.data r = next_frame f.data r) ∧
      ∀ i, i < C → ∃ q, chain f.data f.first_frame_hdr i = some q ∧
        PRIV_BIT f'.data q = (embed_bits source L 0 C).getD i 0 := by
  have hspec := count_private_bits_spec fuel f C hcount
  have hc : ¬ L > f.num_private_bits >>> 3 := by
    rw [hnb, Nat.shiftRight_eq_div_pow]
    have : (2 : Nat) ^ 3 = 8 := by decide
    rw [this]
    omega
  obtain ⟨code, hrun, _, hsucc⟩ := embed_private_data_eq f source L hc
  have hcode : code = mp3_err.MP3_SUCCESS := by
    apply hsucc
    intro i hi
    obtain ⟨q, hq, _⟩ := hspec i (by omega)
    rw [hq]; rfl
  subst hcode
  have hbs := embed_bits_lt source L f.num_private_bits 0
  have hlenbs := embed_bits_length source L f.num_private_bits 0
  have hcnt : ∀ i, i < (embed_bits source L 0 f.num_private_bits).length →
      ∃ q, chain f.data f.first_frame_hdr i = some q ∧ (unpack_header f.data q).isSome = true := by
    intro i hi
    rw [hlenbs, hnb] at hi
    obtain ⟨q, hq, hs, _⟩ := hspec i hi
    exact ⟨q, hq, hs⟩
  have hagree := poke_chain_agree _ f.data f.first_frame_hdr hbs hcnt
  have hstrict := chain_strict f.data f.first_frame_hdr C
    (fun i hi => by
      obtain ⟨q, hq, _, hz⟩ := hspec i hi
      exact ⟨q, hq, hz⟩)
  refine ⟨_, hrun, rfl, ?_, hagree, ?_⟩
  · intro k
    exact chain_congr f.data _ f.first_frame_hdr (fun k r hr => (hagree k r hr).2) k
  · intro i hi
    obtain ⟨q, hq, _, _⟩ := hspec i hi
    refine ⟨q, hq, ?_⟩
    show PRIV_BIT (poke_chain f.data f.first_frame_hdr _) q = _
    rw [poke_chain_priv _ f.data f.first_frame_hdr hbs ?_ i q (by rw [hlenbs, hnb]; exact hi) hq,
      hnb]
    intro i' j' q' r' hij hj hq' hr'
    rw [hlenbs, hnb] at hj
    exact Nat.ne_of_lt (hstrict j' i' q' r' hij (by omega) hq' hr')

/-! ## Extraction -/

theorem extract_loop_some (d : Mem) (fuel q m c : Nat) (out : List Nat) :
    extract_loop d (fuel + 1) (some q) m c out =
      extract_loop d fuel (next_frame d q) (take_bit (m, c, out) (PRIV_BIT d q)).1
        (take_bit (m, c, out) (PRIV_BIT d q)).2.1 (take_bit (m, c, out) (PRIV_BIT d q)).2.2 := by
  simp only [extract_loop, take_bit]
  split <;> rfl

/-- Running `extract_private_data` over `k` frames whose private bits are
`bits` folds `take_bit` over these bits. -/
theorem extract_loop_steps (d : Mem) (fuel : Nat) (bits : List Nat) :
    ∀ (p : Option Nat) (s : Nat × Nat × List Nat),
      (∀ i, i < bits.length → ∃ q, chain d p i = some q ∧ PRIV_BIT d q = bits.getD i 0) →
      extract_loop d (fuel + bits.length) p s.1 s.2.1 s.2.2 =
        extract_loop d fuel (chain d p bits.length) (bits.foldl take_bit s).1
          (bits.foldl take_bit s).2.1 (bits.foldl take_bit s).2.2 := by
  induction bits with
  | nil => intro p s _; rfl
  | cons b bs ih =>
    intro p s h
    obtain ⟨q, hq, hb⟩ := h 0 (by simp)
    simp only [chain] at hq
    subst hq
    simp only [List.getD_cons_zero] at hb
    simp only [List.length_cons, List.foldl_cons]
    rw [← Nat.add_assoc, extract_loop_some, hb, chain_succ_some]
    apply ih
    intro i hi
    obtain ⟨r, hr, hbr⟩ := h (i + 1) (by simp; omega)
    rw [chain_succ_some] at hr
    simp only [List.getD_cons_succ] at hbr
    exact ⟨r, hr, hbr⟩

/-- The bytes `extract_private_data` has stored stay where they are: the
output extends what was stored before, by at least the terminator. -/
theorem extract_loop_extends (d : Mem) (fuel : Nat) :
    ∀ (p : Option Nat) (m c : Nat) (out res : List Nat),
      extract_loop d fuel p m c out = some res →
        res.take out.length = out ∧ out.length < res.length := by
  induction fuel with
  | zero => intro p m c out res h; simp [extract_loop] at h
  | succ fuel ih =>
    intro p m c out res h
    cases p with
    | none =>
      simp only [extract_loop, Option.some.injEq] at h
      subst h
      simp
    | some q =>
      rw [extract_loop_some] at h
      unfold take_bit at h
      split at h
      · obtain ⟨h1, h2⟩ := ih _ _ _ _ _ h
        simp only [List.length_append, List.length_singleton] at h1 h2
        constructor
        · have := congrArg (List.take out.length) h1
          rw [List.take_take, List.take_append_eq_append_take] at this
          simpa using this
        · omega
      · exact ih _ _ _ _ _ h

theorem extract_loop_fuel (d : Mem) (fuel : Nat) :
    ∀ (p : Option Nat) (m c : Nat) (out res : List Nat),
      extract_loop d fuel p m c out = some res →
        ∀ k, extract_loop d (fuel + k) p m c out = some res := by
  induction fuel with
  | zero => intro p m c out res h; simp [extract_loop] at h
  | succ fuel ih =>
    intro p m c out res h k
    have e : fuel + 1 + k = (fuel + k) + 1 := by omega
    rw [e]
    cases p with
    | none =>
      simp only [extract_loop] at h ⊢
      exact h
    | some q =>
      rw [extract_loop_some] at h ⊢
      exact ih _ _ _ _ _ h k

/-! ## The scenario file -/

/-- The cells of the scenario buffer do not depend on what follows it. -/
theorem scenario_cells (tail : Mem) (i : Nat) (hi : i < 20850) :
    byte (scenario_file tail).data i = byte (scenario_file zero_mem).data i := by
  have h1 : ¬ i < ([] : List Nat).length := by simp
  have h2 : i < ([] : List Nat).length + 50 * 417 := by simpa using hi
  simp only [scenario_file, mp3_bytes, byte, if_neg h1, if_pos h2]

theorem scenario_after (tail : Mem) : byte (scenario_file tail).data 20850 = byte tail 0 := by
  have h1 : ¬ 20850 < ([] : List Nat).length := by simp
  have h2 : ¬ 20850 < ([] : List Nat).length + 50 * 417 := by simp
  simp only [scenario_file, mp3_bytes, byte, if_neg h1, if_neg h2]
  rfl

theorem scenario_chain : ∀ k, k < 51 →
    chain (scenario_file zero_mem).data (some 0) k = some (417 * k) := by
  decide

theorem scenario_local (tail : Mem) (q : Nat) (hq : q + 3 < 20850) :
    (unpack_header (scenario_file tail).data q).isSome =
      (unpack_header (scenario_file zero_mem).data q).isSome ∧
    next_frame (scenario_file tail).data q = next_frame (scenario_file zero_mem).data q :=
  next_frame_local _ _ 20850 q (scenario_cells tail) hq

theorem scenario_chain_tail (tail : Mem) (k : Nat) (hk : k < 51) :
    chain (scenario_file tail).data (some 0) k = some (417 * k) := by
  rw [chain_congr_upto (scenario_file zero_mem).data (scenario_file tail).data (some 0) 50
    (fun j q hj hq => by
      rw [scenario_chain j (by omega)] at hq
      simp only [Option.some.injEq] at hq
      exact (scenario_local tail q (by omega)).2) k (by omega)]
  exact scenario_chain k hk

theorem scenario_count (tail : Mem) : count_private_bits 51 (scenario_file tail) = some 50 := by
  have h0 : count_private_bits 51 (scenario_file zero_mem) = some 50 := by decide
  have h1 : ∀ t, count_private_bits 51 (scenario_file t) =
      count_loop (scenario_file t).data (((0 : Nat) : Int) + ((20850 : Nat) : Int) - 4) 51
        (some 0) 0 := fun _ => rfl
  rw [← h0, h1, h1]
  apply count_loop_local
  intro k q _ hq
  exact scenario_local tail q (by omega)

theorem scenario_find (tail : Mem) : find_first_frame_header (scenario_file tail) = some 0 := by
  have hb0 : byte (scenario_file tail).data 0 = 0xff := by
    rw [scenario_cells tail 0 (by decide)]; decide
  have hacc : (unpack_header (scenario_file zero_mem).data 0).isSome = true ∧
      (next_frame (scenario_file zero_mem).data 0).isSome = true := by decide
  unfold find_first_frame_header
  rw [skip_tags_zero _ hb0]
  have hn : Int.toNat (((scenario_file tail).length : Int) - 4 - ((0 : Nat) : Int)) =
      20845 + 1 := by
    show Int.toNat (((20850 : Nat) : Int) - 4 - ((0 : Nat) : Int)) = 20845 + 1
    decide
  rw [hn]
  apply crawl_accept
  rw [(scenario_local tail 0 (by decide)).1, (scenario_local tail 0 (by decide)).2]
  exact hacc

set_option maxRecDepth 100000 in
theorem scenario_fold :
    (embed_bits stego 5 0 50).foldl take_bit (0, 0, []) = (2, 0, stego ++ [0]) := by
  decide

/-- The state of the loop of `extract_private_data` on the scenario file after
"Stego" has been embedded: after 50 turns `p` is `data + 20850`. -/
theorem scenario_extract (tail : Mem) :
    ∃ f', embed_private_data (scenario_file tail) stego 5 = some (mp3_err.MP3_SUCCESS, f') ∧
      f'.length = 20850 ∧ f'.num_private_bits = 50 ∧
      (∀ fuel, extract_private_data (fuel + 50) f' =
        extract_loop f'.data fuel (some 20850) 2 0 (stego ++ [0])) ∧
      next_frame f'.data 20850 = next_frame (scenario_file tail).data 20850 := by
  have hcount := scenario_count tail
  obtain ⟨code, hrun0, _, _⟩ := embed_private_data_eq (scenario_file tail) stego 5
    (show ¬ 5 > (50 : Nat) >>> 3 by decide)
  obtain ⟨f', hrun, hfirst, hchain, hagree, hbits⟩ :=
    embed_counted (scenario_file tail) stego 5 51 50 hcount rfl (by decide)
  have hf' : f' = { scenario_file tail with data := (poke_chain (scenario_file tail).data
      (scenario_file tail).first_frame_hdr
      (embed_bits stego 5 0 (scenario_file tail).num_private_bits)) } := by
    rw [hrun0] at hrun
    simp only [Option.some.injEq, Prod.mk.injEq] at hrun
    exact hrun.2.symm
  have hfirst' : f'.first_frame_hdr = some 0 := hfirst
  have hlen : (embed_bits stego 5 0 50).length = 50 := embed_bits_length _ _ _ _
  have hfold := scenario_fold
  refine ⟨f', hrun, by rw [hf']; rfl, by rw [hf']; rfl, ?_, ?_⟩
  · intro fuel
    have hsteps := extract_loop_steps f'.data fuel (embed_bits stego 5 0 50) (some 0) (0, 0, [])
      (fun i hi => by
        rw [hlen] at hi
        obtain ⟨q, hq, hb⟩ := hbits i hi
        exact ⟨q, by rw [← hq]; exact hchain i, hb⟩)
    rw [hlen, hfold] at hsteps
    have hc50 : chain f'.data (some 0) 50 = some 20850 := by
      rw [show chain f'.data (some 0) 50 = chain (scenario_file tail).data (some 0) 50 from
        hchain 50, scenario_chain_tail tail 50 (by decide)]
    rw [hc50] at hsteps
    unfold extract_private_data
    rw [hfirst']
    exact hsteps
  · exact (hagree 50 20850 (scenario_chain_tail tail 50 (by decide))).2

set_option maxRecDepth 100000 in
theorem top3_iff : ∀ b, b < 256 → (b < 0xe0 ↔ b &&& 0xe0 ≠ 0xe0) := by decide

set_option maxRecDepth 100000 in
theorem bitrate_ok_part : ∀ n, n < 256 → bitrate_ok (n % 4) (n / 4 % 4) (n / 16) = true := by
  decide

theorem bitrate_ok_all (v l br : Nat) (hv : v ≤ 3) (hl : l ≤ 3) (hbr : br ≤ 15) :
    bitrate_ok v l br = true := by
  have h := bitrate_ok_part (v + 4 * l + 16 * br) (by omega)
  have e1 : (v + 4 * l + 16 * br) % 4 = v := by omega
  have e2 : (v + 4 * l + 16 * br) / 4 % 4 = l := by omega
  have e3 : (v + 4 * l + 16 * br) / 16 = br := by omega
  rw [e1, e2, e3] at h
  exact h

theorem crawl_none (d : Mem) (n : Nat) :
    ∀ p, crawl d n p = none ↔
      ∀ q, p ≤ q → q < p + n →
        ¬ ((unpack_header d q).isSome = true ∧ (next_frame d q).isSome = true) := by
  induction n with
  | zero =>
    intro p
    constructor
    · intro _ q h1 h2; omega
    · intro _; rfl
  | succ n ih =>
    intro p
    unfold crawl
    by_cases hacc : (unpack_header d p).isSome = true ∧ (next_frame d p).isSome = true
    · rw [if_pos hacc]
      constructor
      · intro h; exact absurd h (by simp)
      · intro h; exact absurd hacc (h p (le_refl _) (by omega))
    · rw [if_neg hacc, ih (p + 1)]
      constructor
      · intro h q h1 h2
        by_cases hq : q = p
        · subst hq; exact hacc
        · exact h q (by omega) (by omega)
      · intro h q h1 h2
        exact h q (by omega) (by omega)

/-- What `find_first_frame_header` returns: the least accepted offset from
where the tag tests leave `p` up to, but not including, `length - 4`. -/
theorem find_first_some (f : mp3_file) (o : Nat) :
    find_first_frame_header f = some o ↔
      skip_tags f ≤ o ∧ (o : Int) < (f.length : Int) - 4 ∧
      ((unpack_header f.data o).isSome = true ∧ (next_frame f.data o).isSome = true) ∧
      ∀ q, skip_tags f ≤ q → q < o →
        ¬ ((unpack_header f.data q).isSome = true ∧ (next_frame f.data q).isSome = true) := by
  unfold find_first_frame_header
  constructor
  · intro h
    obtain ⟨h1, h2, h3⟩ := crawl_spec _ _ _ _ h
    exact ⟨h1, by omega, h3, crawl_rejects _ _ _ _ h⟩
  · rintro ⟨h1, h2, h3, h4⟩
    exact crawl_first _ _ _ _ h1 (by omega) h4 h3

theorem find_first_none (f : mp3_file) :
    find_first_frame_header f = none ↔
      ∀ q, skip_tags f ≤ q → (q : Int) < (f.length : Int) - 4 →
        ¬ ((unpack_header f.data q).isSome = true ∧ (next_frame f.data q).isSome = true) := by
  unfold find_first_frame_header
  rw [crawl_none]
  constructor
  · intro h q h1 h2
    exact h q h1 (by omega)
  · intro h q h1 h2
    exact h q h1 (by omega)

/-- For bytes below 128 the sum that the code forms from the four size bytes
of an ID3v2 tag is the bitwise or of the shifted bytes. -/
theorem synchsafe_eq (a b c e : Nat) (hb : b < 128) (hc : c < 128) (he : e < 128) :
    (a <<< 21) + (b <<< 14) + (c <<< 7) + e = a <<< 21 ||| b <<< 14 ||| c <<< 7 ||| e := by
  have s1 : a <<< 21 = 2 ^ 21 * a := by rw [Nat.shiftLeft_eq, Nat.mul_comm]
  have s2 : b <<< 14 = 2 ^ 14 * b := by rw [Nat.shiftLeft_eq, Nat.mul_comm]
  have s3 : c <<< 7 = 2 ^ 7 * c := by rw [Nat.shiftLeft_eq, Nat.mul_comm]
  have p7 : (2 : Nat) ^ 7 = 128 := by decide
  have p14 : (2 : Nat) ^ 14 = 16384 := by decide
  have p21 : (2 : Nat) ^ 21 = 2097152 := by decide
  have o1 : 2 ^ 7 * c + e = 2 ^ 7 * c ||| e := Nat.mul_add_lt_is_or (by omega) c
  have o2 : 2 ^ 14 * b + (2 ^ 7 * c + e) = 2 ^ 14 * b ||| (2 ^ 7 * c + e) :=
    Nat.mul_add_lt_is_or (by omega) b
  have o3 : 2 ^ 21 * a + (2 ^ 14 * b + (2 ^ 7 * c + e)) =
      2 ^ 21 * a ||| (2 ^ 14 * b + (2 ^ 7 * c + e)) :=
    Nat.mul_add_lt_is_or (by omega) a
  rw [s1, s2, s3, Nat.add_assoc, Nat.add_assoc, o3, o2, o1, Nat.lor_assoc, Nat.lor_assoc]

/-- On a frame of length zero `extract_private_data` never returns. -/
theorem extract_loop_stuck (d : Mem) (q : Nat) (hz : next_frame d q = some q) :
    ∀ (fuel m c : Nat) (out : List Nat), extract_loop d fuel (some q) m c out = none := by
  intro fuel
  induction fuel with
  | zero => intro m c out; rfl
  | succ fuel ih =>
    intro m c out
    rw [extract_loop_some, hz]
    exact ih _ _ _

/-- The count is the number of called offsets at which the sync test passes. -/
theorem count_calls_count (d : Mem) (e : Int) (fuel : Nat) :
    ∀ (p : Option Nat) (n : Nat),
      count_loop d e fuel p n =
        (count_calls d e fuel p).map
          (fun l => n + (l.filter (fun q => (unpack_header d q).isSome)).length) := by
  induction fuel with
  | zero => intro p n; rfl
  | succ fuel ih =>
    intro p n
    cases p with
    | none => simp [count_loop, count_calls]
    | some q =>
      by_cases hq : (q : Int) < e
      · cases hu : unpack_header d q with
        | none => simp [count_loop, count_calls, hq, hu]
        | some h =>
          simp only [count_loop, count_calls, hq, hu, if_true]
          rw [ih]
          cases count_calls d e fuel (next_frame d q) with
          | none => rfl
          | some l =>
            simp only [Option.map_some', Option.some.injEq, List.filter_cons, hu,
              Option.isSome_some, if_true, List.length_cons]
            omega
      · simp [count_loop, count_calls, hq]

/-- The scan returns the called offset at which the acceptance test passes. -/
theorem crawl_calls_find (d : Mem) (n : Nat) :
    ∀ p, crawl d n p =
      (crawl_calls d n p).find?
        (fun q => decide ((unpack_header d q).isSome = true ∧ (next_frame d q).isSome = true)) := by
  induction n with
  | zero => intro p; rfl
  | succ n ih =>
    intro p
    unfold crawl crawl_calls
    by_cases hacc : (unpack_header d p).isSome = true ∧ (next_frame d p).isSome = true
    · rw [if_pos hacc, if_pos hacc]
      simp [hacc]
    · rw [if_neg hacc, if_neg hacc, ih]
      simp [hacc]

/-! ## The claims -/

/-- C1: on a file of 15 frames followed by an ID3v1 tag the capacity is 15,
the one-byte payload "A" is embedded with success, and extraction returns
"A", 0x01, 0x00: the byte after the payload is 0x01, not 0x00. -/
theorem C1_round_trip_fails :
    find_first_frame_header tagged15_file = some 0 ∧
    count_private_bits 16 tagged15_file = some 15 ∧
    ∃ f', embed_private_data tagged15_file [0x41] 1 = some (mp3_err.MP3_SUCCESS, f') ∧
      extract_private_data 17 f' = some [0x41, 0x01, 0x00] := by
  refine ⟨by decide, by decide, ?_⟩
  have key : (embed_private_data tagged15_file [0x41] 1).map
      (fun r => (r.1, extract_private_data 17 r.2)) =
      some (mp3_err.MP3_SUCCESS, some [0x41, 0x01, 0x00]) := by decide
  cases h : embed_private_data tagged15_file [0x41] 1 with
  | none => rw [h] at key; exact absurd key (by simp)
  | some r =>
    obtain ⟨c, f'⟩ := r
    rw [h] at key
    simp only [Option.map_some', Option.some.injEq, Prod.mk.injEq] at key
    exact ⟨f', by rw [key.1], key.2⟩

/-- C2: on the file of 50 consecutive 417-byte frames the first frame is found
at offset 0, the capacity is 50 bits (6 bytes) and embedding "Stego" succeeds,
whatever the memory holds after the buffer. The extraction afterwards enters
the 51st turn of its loop with `p = data + 20850`, the end of the 20850-byte
buffer, and calls `next_frame` there: it does not return at all when the bytes
`FF FB 00 00` follow the buffer in memory; it returns "Stego", 0x00, 0x00 when
the cell after the buffer is not 0xFF, as with zero bytes after it, and
whenever it returns the output starts with "Stego", 0x00. -/
theorem C2_extract_leaves_buffer :
    (∀ tail : Mem,
      find_first_frame_header (scenario_file tail) = some 0 ∧
      count_private_bits 51 (scenario_file tail) = some 50 ∧
      (50 : Nat) >>> 3 = 6 ∧
      ∃ f', embed_private_data (scenario_file tail) stego 5 = some (mp3_err.MP3_SUCCESS, f') ∧
        f'.length = 20850 ∧
        (∀ fuel, extract_private_data (fuel + 50) f' =
          extract_loop f'.data fuel (some 20850) 2 0 (stego ++ [0])) ∧
        next_frame f'.data 20850 = next_frame (scenario_file tail).data 20850 ∧
        (∀ fuel, extract_private_data fuel f' = none ∨
          ∃ rest, extract_private_data fuel f' = some (stego ++ [0] ++ rest)) ∧
        (byte tail 0 = 0xff ∨ extract_private_data 52 f' = some (stego ++ [0, 0]))) ∧
    (∃ f', embed_private_data (scenario_file (mem_of_bytes free_header_bytes)) stego 5 =
        some (mp3_err.MP3_SUCCESS, f') ∧
      next_frame f'.data 20850 = some 20850 ∧
      ∀ fuel, extract_private_data fuel f' = none) ∧
    (∃ f', embed_private_data (scenario_file zero_mem) stego 5 =
        some (mp3_err.MP3_SUCCESS, f') ∧
      next_frame f'.data 20850 = none ∧
      extract_private_data 52 f' = some (stego ++ [0, 0])) := by
  refine ⟨?_, ?_, ?_⟩
  · intro tail
    obtain ⟨f', hrun, hlen, _, hwalk, hnf⟩ := scenario_extract tail
    refine ⟨scenario_find tail, scenario_count tail, by decide, f', hrun, hlen, hwalk, hnf, ?_, ?_⟩
    · intro fuel
      cases hout : extract_private_data fuel f' with
      | none => exact Or.inl rfl
      | some out =>
        right
        have h1 := extract_loop_fuel f'.data fuel f'.first_frame_hdr 0 0 [] out hout 50
        have h2 : extract_private_data (fuel + 50) f' = some out := h1
        rw [hwalk] at h2
        have h3 := (extract_loop_extends f'.data fuel _ _ _ _ _ h2).1
        refine ⟨out.drop (stego ++ [0]).length, ?_⟩
        have h4 := List.take_append_drop (stego ++ [0]).length out
        rw [h3] at h4
        rw [h4]
    · by_cases htail : byte tail 0 = 0xff
      · exact Or.inl htail
      · right
        have hnone : next_frame f'.data 20850 = none := by
          rw [hnf]
          unfold next_frame
          rw [(unpack_header_eq_none _ _).2 (Or.inl (by rw [scenario_after]; exact htail))]
        rw [show (52 : Nat) = 2 + 50 from rfl, hwalk, extract_loop_some, hnone]
        rfl
  · obtain ⟨f', hrun, _, _, hwalk, hnf⟩ := scenario_extract (mem_of_bytes free_header_bytes)
    have hz : next_frame f'.data 20850 = some 20850 := by
      rw [hnf]; decide
    refine ⟨f', hrun, hz, ?_⟩
    intro fuel
    cases hout : extract_private_data fuel f' with
    | none => rfl
    | some out =>
      exfalso
      have h1 := extract_loop_fuel f'.data fuel f'.first_frame_hdr 0 0 [] out hout 50
      have h2 : extract_private_data (fuel + 50) f' = some out := h1
      rw [hwalk, extract_loop_stuck f'.data 20850 hz] at h2
      exact absurd h2 (by simp)
  · obtain ⟨f', hrun, _, _, hwalk, hnf⟩ := scenario_extract zero_mem
    have hz : next_frame f'.data 20850 = none := by
      rw [hnf]; decide
    refine ⟨f', hrun, hz, ?_⟩
    rw [show (52 : Nat) = 2 + 50 from rfl, hwalk, extract_loop_some, hz]
    rfl

/-- C3: `embed_private_data` returns `MP3_NOT_ENOUGH_ROOM` exactly when
`8 * n` exceeds the capacity, which is the code's test `n > (C >> 3)`, and
then the file, every byte of its buffer included, is unchanged. -/
theorem C3_not_enough_room (f : mp3_file) (source : List Nat) (n : Nat) :
    ((∃ f', embed_private_data f source n = some (mp3_err.MP3_NOT_ENOUGH_ROOM, f')) ↔
      8 * n > f.num_private_bits) ∧
    (n > f.num_private_bits >>> 3 ↔ 8 * n > f.num_private_bits) ∧
    (∀ f', embed_private_data f source n = some (mp3_err.MP3_NOT_ENOUGH_ROOM, f') →
      f' = f ∧ ∀ a, f'.data a = f.data a) := by
  have hiff : n > f.num_private_bits >>> 3 ↔ 8 * n > f.num_private_bits := by
    rw [Nat.shiftRight_eq_div_pow]
    have : (2 : Nat) ^ 3 = 8 := by decide
    rw [this]
    omega
  have honly : ∀ f', embed_private_data f source n = some (mp3_err.MP3_NOT_ENOUGH_ROOM, f') →
      n > f.num_private_bits >>> 3 ∧ f' = f := by
    intro f' h
    unfold embed_private_data at h
    by_cases hc : n > f.num_private_bits >>> 3
    · rw [if_pos hc] at h
      simp only [Option.some.injEq, Prod.mk.injEq, true_and] at h
      exact ⟨hc, h.symm⟩
    · rw [if_neg hc] at h
      exfalso
      cases hl : embed_loop source (f.num_private_bits + 1) f.data f.first_frame_hdr 0x80 0 n
          f.num_private_bits with
      | none => rw [hl] at h; simp at h
      | some r =>
        rw [hl] at h
        simp only [Option.map_some', Option.some.injEq, Prod.mk.injEq] at h
        have := embed_loop_code source _ _ _ _ _ _ _ r hl
        rw [h.1] at this
        rcases this with e | e <;> exact absurd e (by decide)
  refine ⟨⟨?_, ?_⟩, hiff, ?_⟩
  · rintro ⟨f', h⟩
    exact hiff.1 (honly f' h).1
  · intro h
    refine ⟨f, ?_⟩
    unfold embed_private_data
    rw [if_pos (hiff.2 h)]
  · intro f' h
    have := (honly f' h).2
    subst this
    exact ⟨rfl, fun _ => rfl⟩

/-- C4: after a successful embed into a consistently counted file, the
private bit of the `i`-th frame of the chain is bit `7 - i % 8` of payload
byte `i / 8` for `i < 8 * len(P)` and 0 for the remaining counted frames. -/
theorem C4_embed_private_bits (f : mp3_file) (source : List Nat) (fuel C : Nat)
    (hcount : count_private_bits fuel f = some C) (hnb : f.num_private_bits = C)
    (hlen : 8 * source.length ≤ C) :
    ∃ f', embed_private_data f source source.length = some (mp3_err.MP3_SUCCESS, f') ∧
      ∀ i, i < C → ∃ q, chain f.data f.first_frame_hdr i = some q ∧
        chain f'.data f'.first_frame_hdr i = some q ∧
        PRIV_BIT f'.data q =
          if i < 8 * source.length then (source.getD (i / 8) 0 >>> (7 - i % 8)) &&& 1 else 0 := by
  obtain ⟨f', hrun, hfirst, hchain, _, hbits⟩ :=
    embed_counted f source source.length fuel C hcount hnb hlen
  refine ⟨f', hrun, ?_⟩
  intro i hi
  obtain ⟨q, hq, hb⟩ := hbits i hi
  refine ⟨q, hq, by rw [hfirst, hchain, hq], ?_⟩
  rw [hb, embed_bits_getD source source.length C 0 i hi]
  simp only [Nat.zero_add]
  split
  · exact payload_bit_eq source i
  · rfl

/-- C4 at the scenario file with the payload "Stego". -/
theorem C4_embed_private_bits_witness :
    count_private_bits 51 (scenario_file zero_mem) = some 50 ∧
    (scenario_file zero_mem).num_private_bits = 50 ∧
    8 * stego.length ≤ 50 ∧
    ∃ f', embed_private_data (scenario_file zero_mem) stego stego.length =
        some (mp3_err.MP3_SUCCESS, f') ∧
      ∀ i, i < 50 → ∃ q, chain (scenario_file zero_mem).data
          (scenario_file zero_mem).first_frame_hdr i = some q ∧
        chain f'.data f'.first_frame_hdr i = some q ∧
        PRIV_BIT f'.data q =
          if i < 8 * stego.length then (stego.getD (i / 8) 0 >>> (7 - i % 8)) &&& 1 else 0 :=
  ⟨by decide, rfl, by decide,
    C4_embed_private_bits (scenario_file zero_mem) stego 51 50 (by decide) rfl (by decide)⟩

/-- C5: `embed_private_data` always returns, leaves the length (and the
other fields) of the file alone, keeps bits 1..7 of every byte, and changes a
cell only if it is byte 2 of a frame among the first `num_private_bits`
frames walked from the first frame header. -/
theorem C5_embed_frame_effect (f : mp3_file) (source : List Nat) (n : Nat) :
    ∃ code f', embed_private_data f source n = some (code, f') ∧
      f'.length = f.length ∧ f'.first_frame_hdr = f.first_frame_hdr ∧
      f'.num_private_bits = f.num_private_bits ∧
      ∀ a, byte f'.data a >>> 1 = byte f.data a >>> 1 ∧
        (f'.data a ≠ f.data a → ∃ k q, k < f.num_private_bits ∧
          chain f.data f.first_frame_hdr k = some q ∧ a = q + 2) := by
  by_cases hc : n > f.num_private_bits >>> 3
  · refine ⟨mp3_err.MP3_NOT_ENOUGH_ROOM, f, ?_, rfl, rfl, rfl, fun a => ⟨rfl, fun h => absurd rfl h⟩⟩
    unfold embed_private_data
    rw [if_pos hc]
  · obtain ⟨code, hrun, _, _⟩ := embed_private_data_eq f source n hc
    refine ⟨code, _, hrun, rfl, rfl, rfl, ?_⟩
    intro a
    have h := poke_chain_frame (embed_bits source n 0 f.num_private_bits) f.data f.first_frame_hdr
      (embed_bits_lt source n f.num_private_bits 0) a
    rw [embed_bits_length] at h
    exact h

/-- C6: on a file of 7 frames followed by an ID3v1 tag the capacity is 7, yet
`extract_private_data` reads 8 private bits and stores one data byte and the
terminator, 2 bytes, in the 1-byte block it allocates. -/
theorem C6_extract_overruns :
    find_first_frame_header tagged7_file = some 0 ∧
    count_private_bits 8 tagged7_file = some 7 ∧
    extract_alloc tagged7_file = 1 ∧
    extract_private_data 9 tagged7_file = some [0x01, 0x00] := by
  decide

set_option maxRecDepth 100000 in
/-- C7 fails for the first-frame offset, in two ways. With a byte `FF` before
the first frame, whose header `FF E3 82 00` has the padding bit set, the first
frame is found at offset 1 and 8 frames are counted; after embedding the byte
`E9`, whose first bit is 1, the bytes `FF FF E3 83` at offset 0 are a header
without reserved field, followed at offset 488 by another valid header, so
`find_first_frame_header` returns offset 0 and 2 frames are counted from there.
With a buffer that begins with "TAG+" and holds "UAG" at offsets 227..229,
byte 2 of the first frame at 225 being the "U", the first frame is found at
offset 225 and 8 frames are counted; after embedding the byte `41`, whose
first bit is 0, offsets 227..229 hold "TAG", the scan starts at 355 and
returns offset 417, and 7 frames are counted from there. -/
theorem C7_first_frame_moves :
    (find_first_frame_header stray_ff_file = some 1 ∧
      stray_ff_file.first_frame_hdr = some 1 ∧
      count_private_bits 9 stray_ff_file = some 8 ∧
      stray_ff_file.num_private_bits = 8 ∧
      ∃ f', embed_private_data stray_ff_file [0xe9] 1 = some (mp3_err.MP3_SUCCESS, f') ∧
        find_first_frame_header f' = some 0 ∧
        next_frame f'.data 0 = some 488 ∧
        (unpack_header f'.data 488).isSome = true ∧
        next_frame f'.data 488 = some 697 ∧
        count_private_bits 9 { f' with first_frame_hdr := some 0 } = some 2) ∧
    (find_first_frame_header tag_plus_file = some 225 ∧
      tag_plus_file.first_frame_hdr = some 225 ∧
      next_frame tag_plus_file.data 225 = some 417 ∧
      (unpack_header tag_plus_file.data 417).isSome = true ∧
      count_private_bits 9 tag_plus_file = some 8 ∧
      tag_plus_file.num_private_bits = 8 ∧
      skip_tags tag_plus_file = 128 ∧
      ∃ f', embed_private_data tag_plus_file [0x41] 1 = some (mp3_err.MP3_SUCCESS, f') ∧
        skip_tags f' = 355 ∧
        find_first_frame_header f' = some 417 ∧
        next_frame f'.data 417 = some 609 ∧
        (unpack_header f'.data 609).isSome = true ∧
        count_private_bits 9 { f' with first_frame_hdr := some 417 } = some 7) := by
  refine ⟨⟨by decide, rfl, by decide, rfl, ?_⟩,
    ⟨by decide, rfl, by decide, by decide, by decide, rfl, by decide, ?_⟩⟩
  · have key : (embed_private_data stray_ff_file [0xe9] 1).map
        (fun r => decide (r.1 = mp3_err.MP3_SUCCESS ∧ find_first_frame_header r.2 = some 0 ∧
          next_frame r.2.data 0 = some 488 ∧ (unpack_header r.2.data 488).isSome = true ∧
          next_frame r.2.data 488 = some 697 ∧
          count_private_bits 9 { r.2 with first_frame_hdr := some 0 } = some 2)) =
        some true := by decide
    cases h : embed_private_data stray_ff_file [0xe9] 1 with
    | none => rw [h] at key; exact absurd key (by simp)
    | some r =>
      obtain ⟨c, f'⟩ := r
      rw [h] at key
      simp only [Option.map_some', Option.some.injEq, decide_eq_true_eq] at key
      exact ⟨f', by rw [key.1], key.2⟩
  · have key : (embed_private_data tag_plus_file [0x41] 1).map
        (fun r => decide (r.1 = mp3_err.MP3_SUCCESS ∧ skip_tags r.2 = 355 ∧
          find_first_frame_header r.2 = some 417 ∧ next_frame r.2.data 417 = some 609 ∧
          (unpack_header r.2.data 609).isSome = true ∧
          count_private_bits 9 { r.2 with first_frame_hdr := some 417 } = some 7)) =
        some true := by decide
    cases h : embed_private_data tag_plus_file [0x41] 1 with
    | none => rw [h] at key; exact absurd key (by simp)
    | some r =>
      obtain ⟨c, f'⟩ := r
      rw [h] at key
      simp only [Option.map_some', Option.some.injEq, decide_eq_true_eq] at key
      exact ⟨f', by rw [key.1], key.2⟩

/-- C7 as amended: embedding into a consistently counted file leaves the
stored first frame and the count from it unchanged, and the first frame passes
the acceptance test as before; a new scan finds the first frame at the same
offset when the byte just before the first frame, if the scan reads it, is not
0xFF and, in case the buffer is longer than 355 bytes and begins with "TAG+",
the first frame is at offset 226 or later. -/
theorem C7_count_unchanged (f : mp3_file) (source : List Nat) (n fuel C : Nat)
    (hcount : count_private_bits fuel f = some C) (hnb : f.num_private_bits = C) :
    ∃ code f', embed_private_data f source n = some (code, f') ∧
      f'.first_frame_hdr = f.first_frame_hdr ∧
      count_private_bits fuel f' = some C ∧
      (∀ q, f.first_frame_hdr = some q →
        (unpack_header f'.data q).isSome = (unpack_header f.data q).isSome ∧
        next_frame f'.data q = next_frame f.data q) ∧
      (∀ o, f.first_frame_hdr = some o → find_first_frame_header f = some o →
        (f.length > 128 + 227 ∧ byte f.data 0 = 0x54 ∧ byte f.data 1 = 0x41 ∧
          byte f.data 2 = 0x47 ∧ byte f.data 3 = 0x2b → 226 ≤ o) →
        (∀ q, q + 1 = o → skip_tags f ≤ q → byte f.data q ≠ 0xff) →
        find_first_frame_header f' = some o) := by
  have hspec := count_private_bits_spec fuel f C hcount
  obtain ⟨code, bs, hrun, hlen, hbs⟩ := embed_private_data_shape f source n
  have hcnt : ∀ i, i < bs.length →
      ∃ q, chain f.data f.first_frame_hdr i = some q ∧ (unpack_header f.data q).isSome = true := by
    intro i hi
    obtain ⟨q, hq, hs, _⟩ := hspec i (by omega)
    exact ⟨q, hq, hs⟩
  have hagree := poke_chain_agree bs f.data f.first_frame_hdr hbs hcnt
  have hframe := poke_chain_frame bs f.data f.first_frame_hdr hbs
  refine ⟨code, _, hrun, rfl, ?_, ?_, ?_⟩
  · rw [← hcount]
    unfold count_private_bits
    cases hf : f.first_frame_hdr with
    | none => rfl
    | some q0 =>
      simp only [hf]
      apply count_loop_local
      intro k q hq _
      rw [← hf] at hq ⊢
      exact hagree k q hq
  · intro q hq
    exact hagree 0 q (by rw [hq]; rfl)
  · intro o hfo hfind hext hbefore
    have hfind' := hfind
    unfold find_first_frame_header at hfind'
    obtain ⟨h1, h2, h3, h4⟩ := crawl_spec _ _ _ _ hfind'
    have hrej := crawl_rejects _ _ _ _ hfind'
    have hsync : byte f.data o = 0xff := ((unpack_header_isSome f.data o).1 h3).1
    have hsync1 : 0xe0 ≤ byte f.data (o + 1) := ((unpack_header_isSome f.data o).1 h3).2
    have hlow : ∀ i, i < o + 2 →
        byte (poke_chain f.data f.first_frame_hdr bs) i = byte f.data i := by
      intro i hi
      by_cases hne : poke_chain f.data f.first_frame_hdr bs i = f.data i
      · unfold byte; rw [hne]
      · exfalso
        obtain ⟨k, q, _, hq, hiq⟩ := (hframe i).2 hne
        rw [hfo] at hq
        have := chain_mono f.data o k q hq
        omega
    have hsh : ∀ i, byte (poke_chain f.data f.first_frame_hdr bs) i >>> 1 =
        byte f.data i >>> 1 := fun i => (hframe i).1
    have hskip := skip_tags_stable f (poke_chain f.data f.first_frame_hdr bs) o hsh hlow h1
      hsync hsync1 hext
    have hag := hagree 0 o (by rw [hfo]; rfl)
    unfold find_first_frame_header
    rw [hskip]
    apply crawl_first _ _ _ _ h1 h2
    · intro q hq1 hq2 hacc
      by_cases hq : q + 1 = o
      · have hb := hbefore q hq hq1
        have := ((unpack_header_isSome _ q).1 hacc.1).1
        rw [hlow q (by omega)] at this
        exact hb this
      · apply hrej q hq1 hq2
        have e1 := sync_congr (poke_chain f.data f.first_frame_hdr bs) f.data q
          (hlow q (by omega)) (hsh (q + 1))
        have e2 := next_frame_congr (poke_chain f.data f.first_frame_hdr bs) f.data q
          (hlow q (by omega)) (hsh (q + 1)) (hsh (q + 2)) (by rw [hlow (q + 3) (by omega)])
        rw [← e1, ← e2]
        exact hacc
    · show (unpack_header (poke_chain f.data f.first_frame_hdr bs) o).isSome = true ∧
        (next_frame (poke_chain f.data f.first_frame_hdr bs) o).isSome = true
      rw [hag.1, hag.2]
      exact ⟨h3, h4⟩

set_option maxRecDepth 100000 in
/-- C7 as amended, at a file that begins with "TAG+", with the first frame at
offset 226 after a zero byte, and the payload `E9`: the count stays 8 and a
new scan finds the first frame at offset 226 again. -/
theorem C7_count_unchanged_witness :
    count_private_bits 9 tag_plus_gap_file = some 8 ∧
    tag_plus_gap_file.num_private_bits = 8 ∧
    tag_plus_gap_file.first_frame_hdr = some 226 ∧
    find_first_frame_header tag_plus_gap_file = some 226 ∧
    (tag_plus_gap_file.length > 128 + 227 ∧ byte tag_plus_gap_file.data 0 = 0x54 ∧
      byte tag_plus_gap_file.data 1 = 0x41 ∧ byte tag_plus_gap_file.data 2 = 0x47 ∧
      byte tag_plus_gap_file.data 3 = 0x2b) ∧
    skip_tags tag_plus_gap_file ≤ 225 ∧
    byte tag_plus_gap_file.data 225 ≠ 0xff ∧
    ∃ f', embed_private_data tag_plus_gap_file [0xe9] 1 = some (mp3_err.MP3_SUCCESS, f') ∧
      f'.first_frame_hdr = some 226 ∧
      count_private_bits 9 f' = some 8 ∧
      find_first_frame_header f' = some 226 := by
  have hc : count_private_bits 9 tag_plus_gap_file = some 8 := by decide
  have hf : find_first_frame_header tag_plus_gap_file = some 226 := by decide
  have hb : byte tag_plus_gap_file.data 225 ≠ 0xff := by decide
  have hs : (embed_private_data tag_plus_gap_file [0xe9] 1).map (fun r => r.1) =
      some mp3_err.MP3_SUCCESS := by decide
  obtain ⟨code, f', hrun, h1, h2, _, h4⟩ :=
    C7_count_unchanged tag_plus_gap_file [0xe9] 1 9 8 hc rfl
  rw [hrun] at hs
  simp only [Option.map_some', Option.some.injEq] at hs
  subst hs
  exact ⟨hc, rfl, rfl, hf, by decide, by decide, hb, f', hrun, h1, h2,
    h4 226 rfl hf (fun _ => le_refl _)
      (fun q hq _ => by
        have e : q = 225 := by omega
        subst e
        exact hb)⟩

/-- C8: `find_first_frame_header` accepts offset 0 of a file that holds one
frame header and no second one: at the offset `next_frame` returns, 417, there
is no frame sync. -/
theorem C8_single_header_accepted :
    find_first_frame_header lone_header_file = some 0 ∧
    next_frame lone_header_file.data 0 = some 417 ∧
    unpack_header lone_header_file.data 417 = none := by
  decide

/-- C9: `next_frame` does not return `NULL` for a header whose bitrate lookup
is -1 (index 15) or 0 (index 0, free bitrate); it returns the offset it was
given. -/
theorem C9_bad_bitrate_accepted :
    (unpack_header (mem_of_bytes [0xff, 0xfb, 0xf0, 0x00]) 0).map get_bitrate = some (-1) ∧
    next_frame (mem_of_bytes [0xff, 0xfb, 0xf0, 0x00]) 0 = some 0 ∧
    (unpack_header (mem_of_bytes [0xff, 0xfb, 0x00, 0x00]) 0).map get_bitrate = some 0 ∧
    next_frame (mem_of_bytes [0xff, 0xfb, 0x00, 0x00]) 0 = some 0 := by
  decide

/-- C10: for a header of version 1 or 2 with a non-reserved layer, bitrate
index 1..14, sample-rate index 0..2 and emphasis other than 2, the bitrate and
the sampling frequency are positive and `next_frame` advances by the standard
frame size computed with floor division; for Layer III, version 1, 128 kbps
and 44100 Hz that is 417 bytes plus the padding bit. -/
theorem C10_frame_size (d : Mem) (p : Nat) (h : unpacked_frame_header)
    (hu : unpack_header d p = some h)
    (hv : h.version = MP3_VERSION_1 ∨ h.version = MP3_VERSION_2)
    (hl : h.layer ≠ MP3_LAYER_NONE) (hbr1 : 1 ≤ h.bitratex) (hbr2 : h.bitratex ≤ 14)
    (hsf : h.sfreqx ≤ 2) (he : h.emphasis ≠ 2) :
    0 < get_bitrate h ∧ 0 < get_sample_freq h ∧
    ∃ n : Nat, next_frame d p = some (p + n) ∧
      (n : Int) =
        (if h.layer = MP3_LAYER_I then
          (12 * get_bitrate h / get_sample_freq h + h.padding) * 4
        else if h.layer = MP3_LAYER_II ∨
            (h.layer = MP3_LAYER_III ∧ h.version = MP3_VERSION_1) then
          144 * get_bitrate h / get_sample_freq h + h.padding
        else
          72 * get_bitrate h / get_sample_freq h + h.padding) ∧
      (h.layer = MP3_LAYER_III → h.version = MP3_VERSION_1 → get_bitrate h = 128000 →
        get_sample_freq h = 44100 → n = 417 + h.padding) := by
  have hle := unpack_header_layer_le d p h hu
  have hl3 : h.layer = MP3_LAYER_I ∨ h.layer = MP3_LAYER_II ∨ h.layer = MP3_LAYER_III := by
    have : h.layer ≠ 0 := hl
    show h.layer = 3 ∨ h.layer = 2 ∨ h.layer = 1
    omega
  obtain ⟨hfl, hnn⟩ := frame_length_eq_standard h hv hl3 hbr1 hbr2 hsf
  refine ⟨get_bitrate_pos h hv hl3 hbr1 hbr2, get_sample_freq_pos h hv hsf,
    Int.toNat (standard_frame_size h), ?_, ?_, ?_⟩
  · unfold next_frame
    rw [hu]
    have hres : ¬ (h.version = MP3_VERSION_NONE ∨ h.layer = MP3_LAYER_NONE ∨
        h.sfreqx = 3 ∨ h.emphasis = 2) := by
      intro hc
      rcases hc with c | c | c | c
      · rcases hv with v | v <;> rw [v] at c <;> exact absurd c (by decide)
      · exact hl c
      · omega
      · exact he c
    simp only [if_neg hres, Option.some.injEq]
    rw [hfl]
    omega
  · rw [Int.toNat_of_nonneg hnn]
    rfl
  · intro h1 h2 h3 h4
    have : (Int.toNat (standard_frame_size h) : Int) = 417 + (h.padding : Int) := by
      rw [Int.toNat_of_nonneg hnn]
      unfold standard_frame_size
      rw [h1, h2, h3, h4]
      simp
    omega

/-- C10 at the header `FF FB 90 00`: the frame has 417 bytes. -/
theorem C10_frame_size_witness :
    unpack_header (mem_of_bytes [0xff, 0xfb, 0x90, 0x00]) 0 = some scenario_header ∧
    next_frame (mem_of_bytes [0xff, 0xfb, 0x90, 0x00]) 0 = some 417 ∧
    (0 < get_bitrate scenario_header ∧ 0 < get_sample_freq scenario_header ∧
    ∃ n : Nat, next_frame (mem_of_bytes [0xff, 0xfb, 0x90, 0x00]) 0 = some (0 + n) ∧
      (n : Int) =
        (if scenario_header.layer = MP3_LAYER_I then
          (12 * get_bitrate scenario_header / get_sample_freq scenario_header +
            scenario_header.padding) * 4
        else if scenario_header.layer = MP3_LAYER_II ∨
            (scenario_header.layer = MP3_LAYER_III ∧
              scenario_header.version = MP3_VERSION_1) then
          144 * get_bitrate scenario_header / get_sample_freq scenario_header +
            scenario_header.padding
        else
          72 * get_bitrate scenario_header / get_sample_freq scenario_header +
            scenario_header.padding) ∧
      (scenario_header.layer = MP3_LAYER_III → scenario_header.version = MP3_VERSION_1 →
        get_bitrate scenario_header = 128000 → get_sample_freq scenario_header = 44100 →
        n = 417 + scenario_header.padding)) :=
  ⟨by decide, by decide,
    C10_frame_size (mem_of_bytes [0xff, 0xfb, 0x90, 0x00]) 0 scenario_header (by decide)
      (by decide) (by decide) (by decide) (by decide) (by decide) (by decide)⟩

/-- C11: for the MPEG-2.5 Layer III header `FF E3 82 00` (64 kbps, sample-rate
index 0, padding) `get_sample_freq` returns 22050, the MPEG-2 rate, not the
11025 Hz of the third column of `sample_rates`, and `next_frame` advances by
209 bytes where the standard formula with 11025 Hz gives 418; for every
version 2.5 header the sampling frequency is the one of version 2. -/
theorem C11_v25_sample_rate :
    (unpack_header (mem_of_bytes [0xff, 0xe3, 0x82, 0x00]) 0).map
        (fun h => (h.version, h.layer, get_bitrate h, get_sample_freq h, h.padding)) =
      some (MP3_VERSION_25, MP3_LAYER_III, 64000, 22050, 1) ∧
    (sample_rates.getD 0 []).getD 2 0 = 11025 ∧
    next_frame (mem_of_bytes [0xff, 0xe3, 0x82, 0x00]) 0 = some 209 ∧
    (72 * 64000 / 11025 + 1 : Int) = 418 ∧
    ∀ h : unpacked_frame_header, h.version = MP3_VERSION_25 →
      get_sample_freq h = get_sample_freq { h with version := MP3_VERSION_2 } := by
  refine ⟨by decide, by decide, by decide, by decide, ?_⟩
  intro h hv
  unfold get_sample_freq
  simp [hv]

/-- C12: `unpack_header` returns `NULL` exactly when the bytes do not start
with 0xFF followed by a byte whose top three bits are set; otherwise the
fields are the stated bit-fields of bytes 1, 2 and 3, and the result depends
on the six bytes from the offset on only. -/
theorem C12_unpack_header (d : Mem) (p : Nat) :
    (unpack_header d p = none ↔ ¬ (byte d p = 0xff ∧ byte d (p + 1) &&& 0xe0 = 0xe0)) ∧
    (∀ h, unpack_header d p = some h →
      h.version = (byte d (p + 1) >>> 3) &&& 3 ∧
      h.layer = (byte d (p + 1) >>> 1) &&& 3 ∧
      h.protection = byte d (p + 1) &&& 1 ∧
      h.bitratex = byte d (p + 2) >>> 4 ∧
      h.sfreqx = (byte d (p + 2) >>> 2) &&& 3 ∧
      h.padding = (byte d (p + 2) >>> 1) &&& 1 ∧
      h.priv = byte d (p + 2) &&& 1 ∧
      h.mode = byte d (p + 3) >>> 6 ∧
      h.modext = (byte d (p + 3) >>> 4) &&& 3 ∧
      h.copyright = (byte d (p + 3) >>> 3) &&& 1 ∧
      h.original = (byte d (p + 3) >>> 2) &&& 1 ∧
      h.emphasis = byte d (p + 3) &&& 3) ∧
    (∀ (d' : Mem) (p' : Nat), (∀ i, i < 6 → byte d' (p' + i) = byte d (p + i)) →
      unpack_header d' p' = unpack_header d p) := by
  refine ⟨?_, ?_, ?_⟩
  · rw [unpack_header_eq_none]
    constructor
    · rintro (h | h) ⟨h0, h1⟩
      · exact h h0
      · exact (top3_iff _ (byte_lt d (p + 1))).1 h h1
    · intro h
      by_cases h0 : byte d p = 0xff
      · right
        rw [top3_iff _ (byte_lt d (p + 1))]
        exact fun c => h ⟨h0, c⟩
      · left; exact h0
  · intro h hu
    unfold unpack_header at hu
    split at hu
    · exact absurd hu (by simp)
    · simp only [Option.some.injEq] at hu
      subst hu
      exact ⟨rfl, rfl, rfl, rfl, rfl, rfl, rfl, rfl, rfl, rfl, rfl, rfl⟩
  · intro d' p' hb
    have e0 := hb 0 (by decide)
    have e1 := hb 1 (by decide)
    have e2 := hb 2 (by decide)
    have e3 := hb 3 (by decide)
    have e4 := hb 4 (by decide)
    have e5 := hb 5 (by decide)
    simp only [Nat.add_zero] at e0
    unfold unpack_header
    rw [e0, e1, e2, e3, e4, e5]

/-- C13 fails: the bytes `FF F3`, the start of an MPEG-2 Layer III header, do
not have the top five bits of the second byte set, and `unpack_header` does
not return `NULL` for them. -/
theorem C13_top_three_bits_suffice :
    ¬ (byte (mem_of_bytes [0xff, 0xf3, 0x90, 0x00]) 0 = 0xff ∧
      byte (mem_of_bytes [0xff, 0xf3, 0x90, 0x00]) 1 &&& 0xf8 = 0xf8) ∧
    (unpack_header (mem_of_bytes [0xff, 0xf3, 0x90, 0x00]) 0).isSome = true ∧
    (unpack_header (mem_of_bytes [0xff, 0xf3, 0x90, 0x00]) 0).map (fun h => h.version) =
      some MP3_VERSION_2 := by
  decide

/-- C13 as amended: when the bytes at `p` do not start with 0xFF followed by
a byte whose top three bits are set, `unpack_header` returns `NULL`. -/
theorem C13_sync_needed (d : Mem) (p : Nat)
    (h : ¬ (byte d p = 0xff ∧ byte d (p + 1) &&& 0xe0 = 0xe0)) :
    unpack_header d p = none := by
  rw [unpack_header_eq_none]
  by_cases h0 : byte d p = 0xff
  · right
    rw [top3_iff _ (byte_lt d (p + 1))]
    exact fun c => h ⟨h0, c⟩
  · left; exact h0

/-- C13 as amended, at the bytes `FF 7F`. -/
theorem C13_sync_needed_witness :
    ¬ (byte (mem_of_bytes [0xff, 0x7f]) 0 = 0xff ∧
      byte (mem_of_bytes [0xff, 0x7f]) (0 + 1) &&& 0xe0 = 0xe0) ∧
    unpack_header (mem_of_bytes [0xff, 0x7f]) 0 = none :=
  ⟨by decide, C13_sync_needed (mem_of_bytes [0xff, 0x7f]) 0 (by decide)⟩

/-- C14: for the header `FF FA 90 00` followed by `12 34`, whose protection
field is 0 (protected by CRC), `unpack_header` yields `crc = 0`; for
`FF FB 90 00` followed by `12 34`, whose protection field is 1 (not
protected), it yields `crc = 0x1234`. -/
theorem C14_crc_inverted :
    (unpack_header (mem_of_bytes [0xff, 0xfa, 0x90, 0x00, 0x12, 0x34]) 0).map
        (fun h => (h.protection, h.crc)) = some (0, 0) ∧
    (unpack_header (mem_of_bytes [0xff, 0xfb, 0x90, 0x00, 0x12, 0x34]) 0).map
        (fun h => (h.protection, h.crc)) = some (1, 0x1234) := by
  decide

/-- C15: for a buffer of more than 128 bytes that begins with "TAG", the scan
starts at `s`, 355 when the extended-tag test holds and 128 otherwise:
`find_first_frame_header` returns no offset below `s`, it returns the least
accepted offset `o` with `s <= o < length - 4`, and `NULL` when there is none. -/
theorem C15_id3v1_skip (f : mp3_file) (hlen : f.length > 128)
    (h0 : byte f.data 0 = 0x54) (h1 : byte f.data 1 = 0x41) (h2 : byte f.data 2 = 0x47)
    (s : Nat)
    (hs : s = if f.length > 355 ∧ byte f.data 3 = 0x2b ∧ byte f.data 227 = 0x54 ∧
      byte f.data 228 = 0x41 ∧ byte f.data 229 = 0x47 then 355 else 128) :
    (∀ o, find_first_frame_header f = some o → s ≤ o) ∧
    (∀ o, find_first_frame_header f = some o ↔
      s ≤ o ∧ (o : Int) < (f.length : Int) - 4 ∧
      ((unpack_header f.data o).isSome = true ∧ (next_frame f.data o).isSome = true) ∧
      ∀ q, s ≤ q → q < o →
        ¬ ((unpack_header f.data q).isSome = true ∧ (next_frame f.data q).isSome = true)) ∧
    (find_first_frame_header f = none ↔
      ∀ q, s ≤ q → (q : Int) < (f.length : Int) - 4 →
        ¬ ((unpack_header f.data q).isSome = true ∧ (next_frame f.data q).isSome = true)) := by
  have hsk : skip_tags f = s := by
    unfold skip_tags
    rw [if_pos ⟨hlen, h0, h1, h2⟩, hs]
  have hsome := find_first_some f
  have hnone := find_first_none f
  rw [hsk] at hsome hnone
  exact ⟨fun o h => ((hsome o).1 h).1, hsome, hnone⟩

set_option maxRecDepth 100000 in
/-- C15 at a file that begins with a 128-byte "TAG" block followed by two
frames: the first frame is found at offset 128. -/
theorem C15_id3v1_skip_witness :
    tag_first_file.length > 128 ∧ find_first_frame_header tag_first_file = some 128 ∧
    ((∀ o : Nat, find_first_frame_header tag_first_file = some o → 128 ≤ o) ∧
    (∀ o : Nat, find_first_frame_header tag_first_file = some o ↔
      128 ≤ o ∧ (o : Int) < (tag_first_file.length : Int) - 4 ∧
      ((unpack_header tag_first_file.data o).isSome = true ∧
        (next_frame tag_first_file.data o).isSome = true) ∧
      ∀ q : Nat, 128 ≤ q → q < o →
        ¬ ((unpack_header tag_first_file.data q).isSome = true ∧
          (next_frame tag_first_file.data q).isSome = true)) ∧
    (find_first_frame_header tag_first_file = none ↔
      ∀ q : Nat, 128 ≤ q → (q : Int) < (tag_first_file.length : Int) - 4 →
        ¬ ((unpack_header tag_first_file.data q).isSome = true ∧
          (next_frame tag_first_file.data q).isSome = true))) :=
  ⟨by decide, by decide,
    C15_id3v1_skip tag_first_file (by decide) (by decide) (by decide) (by decide) 128
      (by decide)⟩

/-- C16 fails for short buffers: the 10-byte buffer "ID3", `FF FB 90 00`,
`00 00 00` begins with "ID3" and its bytes 6..9 are below 128, so the claim
has the scan begin at offset 10 + 0, yet `find_first_frame_header` returns
offset 3: the ID3v2 test of the code needs a length above 13. -/
theorem C16_short_buffer_not_skipped :
    short_id3_file.length = 10 ∧
    (byte short_id3_file.data 0 = 0x49 ∧ byte short_id3_file.data 1 = 0x44 ∧
      byte short_id3_file.data 2 = 0x33) ∧
    (byte short_id3_file.data 6 < 128 ∧ byte short_id3_file.data 7 < 128 ∧
      byte short_id3_file.data 8 < 128 ∧ byte short_id3_file.data 9 < 128) ∧
    find_first_frame_header short_id3_file = some 3 ∧
    3 < 10 + (byte short_id3_file.data 6 <<< 21 ||| byte short_id3_file.data 7 <<< 14 |||
      byte short_id3_file.data 8 <<< 7 ||| byte short_id3_file.data 9) := by
  decide

/-- C16 as amended: for a buffer of more than 13 bytes that begins with "ID3"
and whose bytes 6..9 are below 128, the scan starts at `10 + size`:
`find_first_frame_header` returns no offset below it, it returns the least
accepted offset `o` with `10 + size <= o < length - 4`, and `NULL` when there
is none. -/
theorem C16_id3v2_skip (f : mp3_file) (hlen : f.length > 13)
    (h0 : byte f.data 0 = 0x49) (h1 : byte f.data 1 = 0x44) (h2 : byte f.data 2 = 0x33)
    (h6 : byte f.data 6 < 128) (h7 : byte f.data 7 < 128) (h8 : byte f.data 8 < 128)
    (h9 : byte f.data 9 < 128) (s : Nat)
    (hs : s = 10 + (byte f.data 6 <<< 21 ||| byte f.data 7 <<< 14 ||| byte f.data 8 <<< 7 |||
      byte f.data 9)) :
    (∀ o, find_first_frame_header f = some o → s ≤ o) ∧
    (∀ o, find_first_frame_header f = some o ↔
      s ≤ o ∧ (o : Int) < (f.length : Int) - 4 ∧
      ((unpack_header f.data o).isSome = true ∧ (next_frame f.data o).isSome = true) ∧
      ∀ q, s ≤ q → q < o →
        ¬ ((unpack_header f.data q).isSome = true ∧ (next_frame f.data q).isSome = true)) ∧
    (find_first_frame_header f = none ↔
      ∀ q, s ≤ q → (q : Int) < (f.length : Int) - 4 →
        ¬ ((unpack_header f.data q).isSome = true ∧ (next_frame f.data q).isSome = true)) := by
  have hsk : skip_tags f = s := by
    unfold skip_tags
    have hnt : ¬ (f.length > 128 ∧ byte f.data 0 = 0x54 ∧ byte f.data 1 = 0x41 ∧
        byte f.data 2 = 0x47) := by
      rw [h0]; exact fun c => absurd c.2.1 (by decide)
    rw [if_neg hnt, if_pos ⟨hlen, h0, h1, h2, h6, h7, h8, h9⟩, hs,
      synchsafe_eq _ _ _ _ h7 h8 h9]
    omega
  have hsome := find_first_some f
  have hnone := find_first_none f
  rw [hsk] at hsome hnone
  exact ⟨fun o h => ((hsome o).1 h).1, hsome, hnone⟩

/-- C16 as amended, at a file made of a 14-byte ID3v2 tag and two frames: the
first frame is found at offset 14. -/
theorem C16_id3v2_skip_witness :
    (id3v2_file zero_mem).length > 13 ∧ find_first_frame_header (id3v2_file zero_mem) = some 14 ∧
    ((∀ o, find_first_frame_header (id3v2_file zero_mem) = some o → 14 ≤ o) ∧
    (∀ o : Nat, find_first_frame_header (id3v2_file zero_mem) = some o ↔
      14 ≤ o ∧ (o : Int) < ((id3v2_file zero_mem).length : Int) - 4 ∧
      ((unpack_header (id3v2_file zero_mem).data o).isSome = true ∧
        (next_frame (id3v2_file zero_mem).data o).isSome = true) ∧
      ∀ q : Nat, 14 ≤ q → q < o →
        ¬ ((unpack_header (id3v2_file zero_mem).data q).isSome = true ∧
          (next_frame (id3v2_file zero_mem).data q).isSome = true)) ∧
    (find_first_frame_header (id3v2_file zero_mem) = none ↔
      ∀ q : Nat, 14 ≤ q → (q : Int) < ((id3v2_file zero_mem).length : Int) - 4 →
        ¬ ((unpack_header (id3v2_file zero_mem).data q).isSome = true ∧
          (next_frame (id3v2_file zero_mem).data q).isSome = true))) :=
  ⟨by decide, by decide,
    C16_id3v2_skip (id3v2_file zero_mem) (by decide) (by decide) (by decide) (by decide) (by decide)
      (by decide) (by decide) (by decide) 14 (by decide)⟩

/-- C17: `get_bitrate` does not tell version 2.5 from version 2; for fields in
their ranges it returns -1 exactly for bitrate index 15 or a reserved version
or layer, 0 exactly for index 0 with version and layer not reserved, and a
positive number for every index 1..14 with version and layer not reserved. -/
theorem C17_get_bitrate (h : unpacked_frame_header) (hbr : h.bitratex ≤ 15)
    (hv : h.version ≤ 3) (hl : h.layer ≤ 3) :
    get_bitrate { h with version := MP3_VERSION_25 } =
      get_bitrate { h with version := MP3_VERSION_2 } ∧
    (get_bitrate h = -1 ↔
      h.bitratex = 15 ∨ h.version = MP3_VERSION_NONE ∨ h.layer = MP3_LAYER_NONE) ∧
    (get_bitrate h = 0 ↔
      h.bitratex = 0 ∧ h.version ≠ MP3_VERSION_NONE ∧ h.layer ≠ MP3_LAYER_NONE) ∧
    (1 ≤ h.bitratex → h.bitratex ≤ 14 → h.version ≠ MP3_VERSION_NONE →
      h.layer ≠ MP3_LAYER_NONE → 0 < get_bitrate h) := by
  have hok := bitrate_ok_all h.version h.layer h.bitratex hv hl hbr
  simp only [bitrate_ok, decide_eq_true_eq] at hok
  have e : get_bitrate h = get_bitrate (core_hdr h.version h.layer h.bitratex 0 0) := rfl
  rw [e]
  exact ⟨rfl, hok⟩

/-- C17 at the header `FF FB 90 00`. -/
theorem C17_get_bitrate_witness :
    scenario_header.bitratex ≤ 15 ∧ scenario_header.version ≤ 3 ∧ scenario_header.layer ≤ 3 ∧
    get_bitrate scenario_header = 128000 ∧
    (get_bitrate { scenario_header with version := MP3_VERSION_25 } =
      get_bitrate { scenario_header with version := MP3_VERSION_2 } ∧
    (get_bitrate scenario_header = -1 ↔
      scenario_header.bitratex = 15 ∨ scenario_header.version = MP3_VERSION_NONE ∨
        scenario_header.layer = MP3_LAYER_NONE) ∧
    (get_bitrate scenario_header = 0 ↔
      scenario_header.bitratex = 0 ∧ scenario_header.version ≠ MP3_VERSION_NONE ∧
        scenario_header.layer ≠ MP3_LAYER_NONE) ∧
    (1 ≤ scenario_header.bitratex → scenario_header.bitratex ≤ 14 →
      scenario_header.version ≠ MP3_VERSION_NONE →
      scenario_header.layer ≠ MP3_LAYER_NONE → 0 < get_bitrate scenario_header)) :=
  ⟨by decide, by decide, by decide, by decide,
    C17_get_bitrate scenario_header (by decide) (by decide) (by decide)⟩

/-- C18: on a file that starts with the free-bitrate header `FF FB 00 00`,
`find_first_frame_header` returns offset 0, `next_frame` at offset 0 returns
offset 0 again, and neither `count_private_bits` nor `extract_private_data`
returns, whatever the number of steps. -/
theorem C18_walk_stalls :
    find_first_frame_header free_bitrate_file = some 0 ∧
    free_bitrate_file.first_frame_hdr = some 0 ∧
    next_frame free_bitrate_file.data 0 = some 0 ∧
    (∀ fuel, count_private_bits fuel free_bitrate_file = none) ∧
    (∀ fuel, extract_private_data fuel free_bitrate_file = none) := by
  have hz : next_frame free_bitrate_file.data 0 = some 0 := by decide
  refine ⟨by decide, rfl, hz, ?_, ?_⟩
  · intro fuel
    exact count_loop_stuck free_bitrate_file.data _ 0 (by decide) (by decide) hz fuel 0
  · intro fuel
    exact extract_loop_stuck free_bitrate_file.data 0 hz fuel 0 0 []

/-- C19: on a 9-byte buffer `find_first_frame_header` calls `unpack_header`
at offset 4, where 5 bytes remain, and the header read there reaches cell 9;
on a truncated file of 839 bytes `count_private_bits` does the same at offset
834 and reaches cell 839; on a file of 848 bytes whose first frame follows a
14-byte tag `count_private_bits` calls `unpack_header` at offset 848, the end
of the buffer, and it counts a third frame there when the memory after the
buffer holds a frame header. -/
theorem C19_reads_past_the_end :
    late_header_file.length = 9 ∧
    find_first_calls late_header_file = [0, 1, 2, 3, 4] ∧
    find_first_frame_header late_header_file = some 4 ∧
    unpack_header_reads late_header_file.data 4 = [4, 5, 6, 7, 8, 9] ∧
    find_first_frame_header truncated_file = truncated_file.first_frame_hdr ∧
    truncated_file.length = 839 ∧
    count_private_bits_calls 4 truncated_file = some [0, 417, 834] ∧
    unpack_header_reads truncated_file.data 834 = [834, 835, 836, 837, 838, 839] ∧
    count_private_bits 4 truncated_file = some 3 ∧
    find_first_frame_header (id3v2_file zero_mem) = (id3v2_file zero_mem).first_frame_hdr ∧
    (id3v2_file zero_mem).length = 848 ∧
    find_first_calls (id3v2_file zero_mem) = [14] ∧
    count_private_bits_calls 4 (id3v2_file zero_mem) = some [14, 431, 848] ∧
    unpack_header_reads (id3v2_file zero_mem).data 848 = [848] ∧
    count_private_bits 4 (id3v2_file zero_mem) = some 2 ∧
    count_private_bits 5 (id3v2_file (mem_of_bytes [0xff, 0xfb, 0x90, 0x00])) = some 3 := by
  decide

/-- C20: on a file whose first frame header is the one that
`find_first_frame_header` returns and whose `num_private_bits` is the count
from it, `embed_private_data` returns `MP3_SUCCESS`, never
`MP3_INVALID_DATA`, for every payload length `n <= num_private_bits >> 3`;
the walk has a frame with a sync pattern at each of its first `8 * n`
positions. -/
theorem C20_invalid_data_unreachable (f : mp3_file) (source : List Nat) (n fuel C : Nat)
    (_hfirst : f.first_frame_hdr = find_first_frame_header f)
    (hcount : count_private_bits fuel f = some C) (hnb : f.num_private_bits = C)
    (hn : n ≤ f.num_private_bits >>> 3) :
    (∃ f', embed_private_data f source n = some (mp3_err.MP3_SUCCESS, f')) ∧
    (∀ f', embed_private_data f source n ≠ some (mp3_err.MP3_INVALID_DATA, f')) ∧
    ∀ i, i < 8 * n → ∃ q, chain f.data f.first_frame_hdr i = some q ∧
      (unpack_header f.data q).isSome = true := by
  have h8 : 8 * n ≤ C := by
    rw [hnb, Nat.shiftRight_eq_div_pow] at hn
    have : (2 : Nat) ^ 3 = 8 := by decide
    rw [this] at hn
    omega
  obtain ⟨f', hrun, _⟩ := embed_counted f source n fuel C hcount hnb h8
  refine ⟨⟨f', hrun⟩, ?_, ?_⟩
  · intro f'' h
    rw [hrun] at h
    simp only [Option.some.injEq, Prod.mk.injEq] at h
    exact absurd h.1 (by decide)
  · intro i hi
    obtain ⟨q, hq, hs, _⟩ := count_private_bits_spec fuel f C hcount i (by omega)
    exact ⟨q, hq, hs⟩

/-- C20 at the scenario file with the payload "Stego". -/
theorem C20_invalid_data_unreachable_witness :
    (scenario_file zero_mem).first_frame_hdr = find_first_frame_header (scenario_file zero_mem) ∧
    count_private_bits 51 (scenario_file zero_mem) = some 50 ∧
    (5 : Nat) ≤ (scenario_file zero_mem).num_private_bits >>> 3 ∧
    ((∃ f', embed_private_data (scenario_file zero_mem) stego 5 =
      some (mp3_err.MP3_SUCCESS, f')) ∧
    (∀ f', embed_private_data (scenario_file zero_mem) stego 5 ≠
      some (mp3_err.MP3_INVALID_DATA, f')) ∧
    ∀ i, i < 8 * 5 → ∃ q, chain (scenario_file zero_mem).data
        (scenario_file zero_mem).first_frame_hdr i = some q ∧
      (unpack_header (scenario_file zero_mem).data q).isSome = true) :=
  ⟨by decide, by decide, by decide,
    C20_invalid_data_unreachable (scenario_file zero_mem) stego 5 51 50 (by decide)
      (by decide) rfl (by decide)⟩

end Stamp3r
